import Mathlib

/-!
Shallow embedding of the `libs` nullable-scalar package (Go).

Source files embedded: `int.go` (Int), `string.go` (String), `time.go`
(Time), `unnamed/part_000` (Date), `unnamed/part_001` (Float),
`unnamed/part_002` (Bool).

Modelling conventions:
* Go `int64` is modelled as `Int`; `strconv.ParseInt`'s range checks are
  explicit against `2^63`.
* Go `float64` is modelled exactly by `F64` (a rational, or an infinity, or
  NaN).  `strconv.ParseFloat`/`FormatFloat` are modelled with exact rational
  arithmetic: real IEEE rounding is not modelled, which is irrelevant for the
  presence/absence logic under study.  Every finite IEEE double is a
  "decimal rational" (denominator `2^a*5^b`), which is the hypothesis the
  format/parse round-trip carries.
* `time.Time` is modelled as a civil date-time `GoTime` (the process-local
  timezone is fixed, and taken to be UTC so that RFC3339 rendering carries
  the `Z` suffix, as it does for Go's zero time).
* JSON tokenization/encoding is an external collaborator per the spec's
  non-goals; decode methods are modelled on the generic decoded value
  `JVal`, and `tokenize` models the assumed tokenizer on the token shapes
  that this package's encoders can produce.
* A Go method `func (x *T) M(arg) error` that mutates its receiver is
  modelled as `T.M : T → Arg → T × Option GoErr` (resulting state, error).
-/

/-- Errors surfaced by the codec: strconv syntax/range errors, the
`json.UnsupportedValueError` raised for non-finite floats, JSON type
mismatch errors, and ad-hoc `errors.New`/`fmt.Errorf` messages. -/
inductive GoErr where
  | numSyntax
  | numRange
  | unsupportedValue
  | typeErr (msg : String)
  | custom (msg : String)
deriving DecidableEq, Repr

/-! ### Decimal digit utilities (shared by strconv and time layout models) -/

def isDigitCh (c : Char) : Bool := 48 ≤ c.toNat && c.toNat ≤ 57

def digitVal (c : Char) : Nat := c.toNat - 48

/-- The decimal digit character for `d < 10` (junk otherwise). -/
def digitChar : Nat → Char
  | 0 => '0' | 1 => '1' | 2 => '2' | 3 => '3' | 4 => '4'
  | 5 => '5' | 6 => '6' | 7 => '7' | 8 => '8' | 9 => '9'
  | _ => '*'

theorem digitVal_digitChar {d : Nat} (h : d < 10) : digitVal (digitChar d) = d := by
  interval_cases d <;> rfl

theorem isDigitCh_digitChar {d : Nat} (h : d < 10) : isDigitCh (digitChar d) = true := by
  interval_cases d <;> rfl

/-- Little-endian digit list of `n` (fuel-driven so that it reduces). -/
def natDigitsAux : Nat → Nat → List Nat
  | 0, _ => []
  | fuel+1, n => if n = 0 then [] else n % 10 :: natDigitsAux fuel (n / 10)

def natDigitsRev (n : Nat) : List Nat := natDigitsAux n n

/-- Big-endian digit list of `n` (empty for `0`). -/
def natDigitsBE (n : Nat) : List Nat := (natDigitsRev n).reverse

/-- Value of a little-endian digit list. -/
def digitsToNat : List Nat → Nat
  | [] => 0
  | d :: ds => d + 10 * digitsToNat ds

theorem natDigitsAux_spec : ∀ fuel n, n ≤ fuel → digitsToNat (natDigitsAux fuel n) = n := by
  intro fuel
  induction fuel with
  | zero => intro n h; interval_cases n; rfl
  | succ f ih =>
    intro n h
    by_cases h0 : n = 0
    · simp [natDigitsAux, h0, digitsToNat]
    · have hlt : n / 10 < n := Nat.div_lt_self (Nat.pos_of_ne_zero h0) (by omega)
      have : n / 10 ≤ f := by omega
      simp only [natDigitsAux, h0, if_false, digitsToNat, ih _ this]
      omega

theorem digitsToNat_natDigitsRev (n : Nat) : digitsToNat (natDigitsRev n) = n :=
  natDigitsAux_spec n n (Nat.le_refl n)

theorem natDigitsAux_lt10 : ∀ fuel n d, d ∈ natDigitsAux fuel n → d < 10 := by
  intro fuel
  induction fuel with
  | zero => intro n d h; simp [natDigitsAux] at h
  | succ f ih =>
    intro n d h
    by_cases h0 : n = 0
    · simp [natDigitsAux, h0] at h
    · simp only [natDigitsAux, h0, if_false, List.mem_cons] at h
      rcases h with h | h
      · omega
      · exact ih _ _ h

theorem natDigitsBE_lt10 {n d : Nat} (h : d ∈ natDigitsBE n) : d < 10 := by
  have := List.mem_reverse.mp h
  exact natDigitsAux_lt10 n n d this

theorem natDigitsRev_ne_nil {n : Nat} (h : n ≠ 0) : natDigitsRev n ≠ [] := by
  cases n with
  | zero => exact absurd rfl h
  | succ m => simp [natDigitsRev, natDigitsAux, h]

/-- Big-endian value of a digit list (fold, as a base-10 positional read). -/
def beVal (ds : List Nat) : Nat := ds.foldl (fun a d => a * 10 + d) 0

theorem beVal_foldl_gen : ∀ (ds : List Nat) (a : Nat),
    ds.foldl (fun a d => a * 10 + d) a = a * 10 ^ ds.length + beVal ds := by
  intro ds
  induction ds with
  | nil => intro a; simp [beVal]
  | cons d ds ih =>
    intro a
    simp only [List.foldl_cons, List.length_cons, beVal] at *
    rw [ih (a * 10 + d), ih (0 * 10 + d)]
    ring

theorem beVal_append_single (ds : List Nat) (d : Nat) :
    beVal (ds ++ [d]) = beVal ds * 10 + d := by
  simp only [beVal, List.foldl_append, List.foldl_cons, List.foldl_nil]

theorem beVal_reverse (ds : List Nat) : beVal ds.reverse = digitsToNat ds := by
  induction ds with
  | nil => rfl
  | cons d ds ih =>
    simp only [List.reverse_cons, beVal_append_single, ih, digitsToNat]
    ring

theorem beVal_natDigitsBE (n : Nat) : beVal (natDigitsBE n) = n := by
  simp [natDigitsBE, beVal_reverse, digitsToNat_natDigitsRev]

/-- Value read of a big-endian digit-character list. -/
def chListVal (cs : List Char) : Nat := cs.foldl (fun a c => a * 10 + digitVal c) 0

theorem chListVal_map_gen : ∀ (ds : List Nat) (a : Nat), (∀ d ∈ ds, d < 10) →
    (ds.map digitChar).foldl (fun a c => a * 10 + digitVal c) a
      = ds.foldl (fun a d => a * 10 + d) a := by
  intro ds
  induction ds with
  | nil => intro a _; rfl
  | cons d ds ih =>
    intro a h
    simp only [List.map_cons, List.foldl_cons]
    rw [digitVal_digitChar (h d (List.mem_cons_self d ds)),
      ih _ (fun x hx => h x (List.mem_cons_of_mem d hx))]

theorem chListVal_map {ds : List Nat} (h : ∀ d ∈ ds, d < 10) :
    chListVal (ds.map digitChar) = beVal ds :=
  chListVal_map_gen ds 0 h

/-- `strconv`-style decimal rendering of a natural number. -/
def natReprCh (n : Nat) : List Char :=
  if n = 0 then ['0'] else (natDigitsBE n).map digitChar

theorem chListVal_natReprCh (n : Nat) : chListVal (natReprCh n) = n := by
  by_cases h : n = 0
  · simp [natReprCh, h, chListVal, digitVal]
  · simp only [natReprCh, h, if_false]
    rw [chListVal_map (fun d hd => natDigitsBE_lt10 hd), beVal_natDigitsBE]

theorem natReprCh_ne_nil (n : Nat) : natReprCh n ≠ [] := by
  by_cases h : n = 0
  · simp [natReprCh, h]
  · simp only [natReprCh, h, if_false, ne_eq, List.map_eq_nil_iff]
    simpa [natDigitsBE] using natDigitsRev_ne_nil h

theorem natReprCh_all_digits (n : Nat) : ∀ c ∈ natReprCh n, isDigitCh c = true := by
  intro c hc
  by_cases h : n = 0
  · simp [natReprCh, h] at hc; subst hc; rfl
  · simp only [natReprCh, h, if_false, List.mem_map] at hc
    obtain ⟨d, hd, rfl⟩ := hc
    exact isDigitCh_digitChar (natDigitsBE_lt10 hd)

/-! ### strconv.ParseInt / FormatInt (base 10, bitSize 64) -/

/-- Take the leading run of decimal digits. -/
def spanDigits : List Char → List Char × List Char
  | [] => ([], [])
  | c :: cs =>
    if isDigitCh c then
      let p := spanDigits cs
      (c :: p.1, p.2)
    else ([], c :: cs)

theorem spanDigits_append {a : List Char} (b : List Char)
    (ha : ∀ c ∈ a, isDigitCh c = true)
    (hb : ∀ c rest, b = c :: rest → isDigitCh c = false) :
    spanDigits (a ++ b) = (a, b) := by
  induction a with
  | nil =>
    cases b with
    | nil => rfl
    | cons c rest =>
      simp only [List.nil_append, spanDigits, hb c rest rfl, Bool.false_eq_true, if_false]
  | cons c cs ih =>
    simp only [List.cons_append, spanDigits, ha c (List.mem_cons_self c cs), if_true,
      List.append_eq]
    rw [ih (fun x hx => ha x (List.mem_cons_of_mem c hx))]

theorem spanDigits_all (a : List Char) (ha : ∀ c ∈ a, isDigitCh c = true) :
    spanDigits a = (a, []) := by
  have := spanDigits_append (a := a) [] ha (by intro c rest h; cases h)
  simpa using this

/-- Model of `strconv.ParseInt(s, 10, 64)` on the character list: returns the
Go result value and the error.  Go returns `0` with a syntax error, and the
clamped bound with a range error. -/
def goParseInt64Ch : List Char → Int × Option GoErr
  | [] => (0, some .numSyntax)
  | c :: rest =>
    let ds := if c = '-' ∨ c = '+' then rest else c :: rest
    if ds = [] then (0, some .numSyntax)
    else if ds.all isDigitCh then
      let v := chListVal ds
      if c = '-' then
        if v ≤ 2 ^ 63 then (-(v : Int), none) else (-(2 ^ 63 : Int), some .numRange)
      else
        if v ≤ 2 ^ 63 - 1 then ((v : Int), none)
        else (((2 ^ 63 - 1 : Nat) : Int), some .numRange)
    else (0, some .numSyntax)

def goParseInt64 (s : String) : Int × Option GoErr := goParseInt64Ch s.data

/-- Model of `strconv.FormatInt(n, 10)` (as a character list). -/
def formatInt (n : Int) : List Char :=
  if n < 0 then '-' :: natReprCh n.natAbs else natReprCh n.natAbs

theorem isDigitCh_ne_minus {c : Char} (h : isDigitCh c = true) : (c = '-') = False := by
  simp only [eq_iff_iff, iff_false]
  intro hc; subst hc; simp [isDigitCh] at h

theorem isDigitCh_ne_plus {c : Char} (h : isDigitCh c = true) : (c = '+') = False := by
  simp only [eq_iff_iff, iff_false]
  intro hc; subst hc; simp [isDigitCh] at h

theorem goParseInt64Ch_formatInt (n : Int) (h1 : -(2 ^ 63) ≤ n) (h2 : n ≤ 2 ^ 63 - 1) :
    goParseInt64Ch (formatInt n) = (n, none) := by
  obtain ⟨c, cs, hcs⟩ : ∃ c cs, natReprCh n.natAbs = c :: cs := by
    cases hrep : natReprCh n.natAbs with
    | nil => exact absurd hrep (natReprCh_ne_nil _)
    | cons c cs => exact ⟨c, cs, rfl⟩
  have hc : isDigitCh c = true := by
    apply natReprCh_all_digits; rw [hcs]; exact List.mem_cons_self c cs
  have hall : (c :: cs).all isDigitCh = true := by
    rw [← hcs]; exact List.all_eq_true.mpr (natReprCh_all_digits _)
  have hv : chListVal (c :: cs) = n.natAbs := by rw [← hcs]; exact chListVal_natReprCh _
  by_cases hn : n < 0
  · have hrange : n.natAbs ≤ 2 ^ 63 := by omega
    have hcast : (-(n.natAbs : Int)) = n := by omega
    simp [formatInt, hn, hcs, goParseInt64Ch, hall, hv, hcast]
    rw [if_pos (by omega : n.natAbs ≤ 9223372036854775808)]
    simp [abs_of_neg hn]
  · have hrange : n.natAbs ≤ 2 ^ 63 - 1 := by omega
    have hcast : ((n.natAbs : Int)) = n := by omega
    simp [formatInt, hn, hcs, goParseInt64Ch, hall, hv, hcast,
      isDigitCh_ne_minus hc, isDigitCh_ne_plus hc]
    omega

/-! ### float64 model and strconv.ParseFloat / FormatFloat -/

/-- Exact model of a Go `float64` value: a finite value (as its exact
rational), an infinity, or NaN. -/
inductive F64 where
  | finite (q : ℚ)
  | inf (neg : Bool)
  | nan
deriving DecidableEq, Repr

/-- Strip factors of `p` (fuel-driven). Returns `(count, remainder)`. -/
def stripFac (p : Nat) : Nat → Nat → Nat × Nat
  | 0, n => (0, n)
  | fuel+1, n =>
    if n % p = 0 ∧ n ≠ 0 ∧ 2 ≤ p then
      let r := stripFac p fuel (n / p)
      (r.1 + 1, r.2)
    else (0, n)

theorem stripFac_spec (p : Nat) : ∀ fuel n,
    (stripFac p fuel n).2 * p ^ (stripFac p fuel n).1 = n := by
  intro fuel
  induction fuel with
  | zero => intro n; simp [stripFac]
  | succ f ih =>
    intro n
    by_cases h : n % p = 0 ∧ n ≠ 0 ∧ 2 ≤ p
    · simp only [stripFac]
      rw [if_pos h]
      show (stripFac p f (n / p)).2 * p ^ ((stripFac p f (n / p)).1 + 1) = n
      have hdvd : p ∣ n := Nat.dvd_of_mod_eq_zero h.1
      have := ih (n / p)
      calc (stripFac p f (n / p)).2 * p ^ ((stripFac p f (n / p)).1 + 1)
          = (stripFac p f (n / p)).2 * p ^ (stripFac p f (n / p)).1 * p := by ring
        _ = n / p * p := by rw [this]
        _ = n := Nat.div_mul_cancel hdvd
    · simp [stripFac, h]

/-- The least `k` with `d ∣ 10^k`, when `d` is of the form `2^a * 5^b`
(the denominator of every finite IEEE double is). -/
def decExpOf (d : Nat) : Option Nat :=
  let r2 := stripFac 2 d d
  let r5 := stripFac 5 r2.2 r2.2
  if r5.2 = 1 then some (max r2.1 r5.1) else none

theorem decExpOf_dvd {d k : Nat} (h : decExpOf d = some k) : d ∣ 10 ^ k := by
  simp only [decExpOf] at h
  by_cases h1 : (stripFac 5 (stripFac 2 d d).2 (stripFac 2 d d).2).2 = 1
  · simp only [h1, if_true, Option.some.injEq] at h
    subst h
    have e2 := stripFac_spec 2 d d
    have e5 := stripFac_spec 5 (stripFac 2 d d).2 (stripFac 2 d d).2
    rw [h1, one_mul] at e5
    set a := (stripFac 2 d d).1 with ha
    set b := (stripFac 5 (stripFac 2 d d).2 (stripFac 2 d d).2).1 with hb
    have hd : d = 5 ^ b * 2 ^ a := by rw [← e2, ← e5]
    have h10 : (10 : Nat) ^ max a b = 5 ^ max a b * 2 ^ max a b := by
      rw [← Nat.mul_pow]
    rw [hd, h10]
    exact Nat.mul_dvd_mul (pow_dvd_pow 5 (Nat.le_max_right a b))
      (pow_dvd_pow 2 (Nat.le_max_left a b))
  · simp [h1] at h

theorem natDigitsAux_length_le : ∀ fuel n k, n < 10 ^ k →
    (natDigitsAux fuel n).length ≤ k := by
  intro fuel
  induction fuel with
  | zero => intro n k _; simp [natDigitsAux]
  | succ f ih =>
    intro n k h
    by_cases h0 : n = 0
    · simp [natDigitsAux, h0]
    · cases k with
      | zero => simp at h; omega
      | succ k' =>
        simp only [natDigitsAux, h0, if_false, List.length_cons]
        have : n / 10 < 10 ^ k' := by
          have : n < 10 ^ (k' + 1) := h
          rw [pow_succ] at this
          omega
        have := ih (n / 10) k' this
        omega

theorem natDigitsBE_length_le {n k : Nat} (h : n < 10 ^ k) :
    (natDigitsBE n).length ≤ k := by
  simp only [natDigitsBE, natDigitsRev, List.length_reverse]
  exact natDigitsAux_length_le n n k h

/-- Exactly `k` decimal digits of `m < 10^k`, zero-padded on the left. -/
def padDigits (k m : Nat) : List Char :=
  List.replicate (k - (natDigitsBE m).length) '0' ++ (natDigitsBE m).map digitChar

theorem padDigits_all_digits (k m : Nat) : ∀ c ∈ padDigits k m, isDigitCh c = true := by
  intro c hc
  simp only [padDigits, List.mem_append, List.mem_replicate, List.mem_map] at hc
  rcases hc with ⟨_, rfl⟩ | ⟨d, hd, rfl⟩
  · rfl
  · exact isDigitCh_digitChar (natDigitsBE_lt10 hd)

theorem padDigits_length {k m : Nat} (h : m < 10 ^ k) : (padDigits k m).length = k := by
  have := natDigitsBE_length_le h
  simp only [padDigits, List.length_append, List.length_replicate, List.length_map]
  omega

theorem chListVal_foldl_gen : ∀ (cs : List Char) (a : Nat),
    cs.foldl (fun a c => a * 10 + digitVal c) a = a * 10 ^ cs.length + chListVal cs := by
  intro cs
  induction cs with
  | nil => intro a; simp [chListVal]
  | cons c cs ih =>
    intro a
    simp only [List.foldl_cons, List.length_cons, chListVal] at *
    rw [ih (a * 10 + digitVal c), ih (0 * 10 + digitVal c)]
    ring

theorem chListVal_append (a b : List Char) :
    chListVal (a ++ b) = chListVal a * 10 ^ b.length + chListVal b := by
  simp only [chListVal, List.foldl_append]
  rw [chListVal_foldl_gen b (List.foldl (fun a c => a * 10 + digitVal c) 0 a)]
  rfl

theorem chListVal_replicate_zero (z : Nat) : chListVal (List.replicate z '0') = 0 := by
  induction z with
  | zero => rfl
  | succ n ih =>
    rw [List.replicate_succ, show ('0' :: List.replicate n '0') = ['0'] ++ List.replicate n '0' from rfl,
      chListVal_append, ih]
    simp [chListVal, digitVal]

theorem chListVal_padDigits {k m : Nat} (h : m < 10 ^ k) : chListVal (padDigits k m) = m := by
  simp only [padDigits, chListVal_append, chListVal_replicate_zero, zero_mul, zero_add]
  rw [chListVal_map (fun d hd => natDigitsBE_lt10 hd), beVal_natDigitsBE]

/-- Render a decimal value `(-1)^neg * a / 10^k` in `%f` style. -/
def formatDecParts (neg : Bool) (a k : Nat) : List Char :=
  (if neg then ['-'] else []) ++
    (if k = 0 then natReprCh a
     else natReprCh (a / 10 ^ k) ++ '.' :: padDigits k (a % 10 ^ k))

/-- Model of `strconv.FormatFloat(x, 'f', -1, 64)` for a finite value: the
exact (shortest) decimal expansion.  Only meaningful when the denominator is
of the form `2^a*5^b`, which holds of every finite IEEE double. -/
def formatRatF (q : ℚ) : List Char :=
  match decExpOf q.den with
  | none => ['0']
  | some k =>
    formatDecParts (decide (q.num < 0))
      ((q.num * (((10 : Nat) ^ k / q.den : Nat) : Int)).natAbs) k

/-- Model of `strconv.FormatFloat(x, 'f', -1, 64)` including the
non-finite spellings Go produces. -/
def goFormatFloat : F64 → List Char
  | .finite q => formatRatF q
  | .inf true => ['-', 'I', 'n', 'f']
  | .inf false => ['+', 'I', 'n', 'f']
  | .nan => ['N', 'a', 'N']

/-- Lower-case an ASCII letter (for the case-insensitive special float
literals). -/
def lowCh (c : Char) : Char :=
  if 65 ≤ c.toNat ∧ c.toNat ≤ 90 then Char.ofNat (c.toNat + 32) else c

/-- The special literals `strconv.ParseFloat` accepts besides decimal
numbers: `inf`/`infinity` with optional sign and unsigned `nan`, all
case-insensitively. -/
def specialOf (cs : List Char) : Option F64 :=
  let low := cs.map lowCh
  if low = "nan".data then some .nan
  else if low = "inf".data ∨ low = "infinity".data then some (.inf false)
  else if low = "+inf".data ∨ low = "+infinity".data then some (.inf false)
  else if low = "-inf".data ∨ low = "-infinity".data then some (.inf true)
  else none

/-- Apply an exponent suffix (already past the `e`/`E`) to mantissa `m`. -/
def applyExp (m : ℚ) (cs : List Char) : Option ℚ :=
  match cs with
  | [] => none
  | c :: rest =>
    let ds := if c = '-' ∨ c = '+' then rest else c :: rest
    if ds ≠ [] ∧ ds.all isDigitCh then
      if c = '-' then some (m / 10 ^ chListVal ds) else some (m * 10 ^ chListVal ds)
    else none

/-- The decimal-literal grammar of `strconv.ParseFloat`:
`[sign] digits [. digits] [e|E [sign] digits]`, at least one mantissa
digit.  Exact rational value (no IEEE rounding). -/
def parseDecF (cs : List Char) : Option ℚ :=
  match cs with
  | [] => none
  | c :: rest =>
    let ms := if c = '-' ∨ c = '+' then rest else c :: rest
    let p1 := spanDigits ms
    let fr : List Char × List Char :=
      match p1.2 with
      | [] => ([], [])
      | d :: r => if d = '.' then spanDigits r else ([], d :: r)
    if p1.1 = [] ∧ fr.1 = [] then none
    else
      let mant : ℚ := (chListVal (p1.1 ++ fr.1) : ℚ) / (10 : ℚ) ^ fr.1.length
      let signed : ℚ := if c = '-' then -mant else mant
      match fr.2 with
      | [] => some signed
      | d :: r3 => if d = 'e' ∨ d = 'E' then applyExp signed r3 else none

/-- Model of `strconv.ParseFloat(s, 64)` on a character list: the value Go
stores (0 on syntax error) and the error.  The decimal grammar is tried
first, then the special literals; their domains are disjoint, so the order
(opposite to Go's) is immaterial. -/
def goParseFloatCh (cs : List Char) : F64 × Option GoErr :=
  match parseDecF cs with
  | some q => (.finite q, none)
  | none =>
    match specialOf cs with
    | some v => (v, none)
    | none => (.finite 0, some .numSyntax)

def goParseFloat (s : String) : F64 × Option GoErr := goParseFloatCh s.data

theorem abs_rat_eq (q : ℚ) : |q| = (q.num.natAbs : ℚ) / (q.den : ℚ) := by
  have hden : (0:ℚ) < q.den := by exact_mod_cast q.pos
  conv_lhs => rw [← Rat.num_div_den q]
  rw [abs_div, abs_of_pos hden, Int.cast_natAbs, Int.cast_abs]

theorem list_ex_cons {α : Type} {ds : List α} (hne : ds ≠ []) : ∃ c cs, ds = c :: cs := by
  cases ds with
  | nil => exact absurd rfl hne
  | cons c cs => exact ⟨c, cs, rfl⟩

theorem parseDecF_digits {ds : List Char} (hne : ds ≠ [])
    (hd : ∀ c ∈ ds, isDigitCh c = true) :
    parseDecF ds = some ((chListVal ds : ℚ)) := by
  obtain ⟨c, cs, rfl⟩ := list_ex_cons hne
  have hc := hd c (List.mem_cons_self c cs)
  have hspan : spanDigits (c :: cs) = (c :: cs, []) := spanDigits_all _ hd
  simp only [parseDecF, isDigitCh_ne_minus hc, isDigitCh_ne_plus hc, or_self, if_false,
    hspan, List.append_nil, List.length_nil, pow_zero, div_one, reduceCtorEq, false_and]

theorem parseDecF_neg_digits {ds : List Char} (hne : ds ≠ [])
    (hd : ∀ c ∈ ds, isDigitCh c = true) :
    parseDecF ('-' :: ds) = some (-(chListVal ds : ℚ)) := by
  obtain ⟨c, cs, rfl⟩ := list_ex_cons hne
  have hspan : spanDigits (c :: cs) = (c :: cs, []) := spanDigits_all _ hd
  simp only [parseDecF, hspan, List.append_nil, List.length_nil, pow_zero, div_one,
    reduceCtorEq, false_and, if_true, true_or, if_pos, or_self]
  simp

theorem parseDecF_frac {A B : List Char} (hAne : A ≠ [])
    (hA : ∀ c ∈ A, isDigitCh c = true) (hB : ∀ c ∈ B, isDigitCh c = true) :
    parseDecF (A ++ '.' :: B) = some ((chListVal (A ++ B) : ℚ) / (10 : ℚ) ^ B.length) := by
  obtain ⟨c, cs, rfl⟩ := list_ex_cons hAne
  have hc := hA c (List.mem_cons_self c cs)
  have hspan1 : spanDigits ((c :: cs) ++ '.' :: B) = (c :: cs, '.' :: B) :=
    spanDigits_append _ hA (by intro d r hdr; cases hdr; rfl)
  have hspan2 : spanDigits B = (B, []) := spanDigits_all _ hB
  simp only [List.cons_append] at hspan1 ⊢
  simp only [parseDecF, isDigitCh_ne_minus hc, isDigitCh_ne_plus hc, or_self, if_false,
    hspan1, hspan2, reduceCtorEq, false_and, List.cons_append]
  simp

theorem parseDecF_neg_frac {A B : List Char} (hAne : A ≠ [])
    (hA : ∀ c ∈ A, isDigitCh c = true) (hB : ∀ c ∈ B, isDigitCh c = true) :
    parseDecF ('-' :: (A ++ '.' :: B))
      = some (-((chListVal (A ++ B) : ℚ) / (10 : ℚ) ^ B.length)) := by
  obtain ⟨c, cs, rfl⟩ := list_ex_cons hAne
  have hspan1 : spanDigits ((c :: cs) ++ '.' :: B) = (c :: cs, '.' :: B) :=
    spanDigits_append _ hA (by intro d r hdr; cases hdr; rfl)
  have hspan2 : spanDigits B = (B, []) := spanDigits_all _ hB
  simp only [List.cons_append] at hspan1 ⊢
  simp only [parseDecF, hspan1, hspan2, reduceCtorEq, false_and, List.cons_append]
  simp [hspan1, hspan2]

theorem parseDecF_formatDecParts (neg : Bool) (a k : Nat) :
    parseDecF (formatDecParts neg a k)
      = some ((if neg then -1 else 1) * ((a : ℚ) / (10 : ℚ) ^ k)) := by
  by_cases hk0 : k = 0
  · subst hk0
    cases neg with
    | false =>
      simp only [formatDecParts, if_true, if_false, List.nil_append, Bool.false_eq_true,
        pow_zero, div_one, one_mul]
      rw [parseDecF_digits (natReprCh_ne_nil a) (natReprCh_all_digits a),
        chListVal_natReprCh]
    | true =>
      simp only [formatDecParts, if_true, List.singleton_append, pow_zero, div_one]
      rw [parseDecF_neg_digits (natReprCh_ne_nil a) (natReprCh_all_digits a),
        chListVal_natReprCh]
      ring_nf
  · have h10pos : 0 < (10:Nat) ^ k := pow_pos (by norm_num) k
    have hfr : a % 10 ^ k < 10 ^ k := Nat.mod_lt _ h10pos
    have hlen : (padDigits k (a % 10 ^ k)).length = k := padDigits_length hfr
    have hsplit : chListVal (natReprCh (a / 10 ^ k) ++ padDigits k (a % 10 ^ k)) = a := by
      rw [chListVal_append, chListVal_natReprCh, chListVal_padDigits hfr, hlen]
      exact Nat.div_add_mod' a (10 ^ k)
    cases neg with
    | false =>
      simp only [formatDecParts, hk0, if_false, List.nil_append, Bool.false_eq_true, one_mul]
      rw [parseDecF_frac (natReprCh_ne_nil (a / 10 ^ k)) (natReprCh_all_digits (a / 10 ^ k))
        (padDigits_all_digits k (a % 10 ^ k)), hsplit, hlen]
    | true =>
      simp only [formatDecParts, hk0, if_false, if_true, List.singleton_append]
      rw [parseDecF_neg_frac (natReprCh_ne_nil (a / 10 ^ k))
        (natReprCh_all_digits (a / 10 ^ k)) (padDigits_all_digits k (a % 10 ^ k)),
        hsplit, hlen]
      ring_nf

theorem goParseFloatCh_formatRatF (q : ℚ) {k : Nat} (hk : decExpOf q.den = some k) :
    goParseFloatCh (formatRatF q) = (.finite q, none) := by
  have hdvd : q.den ∣ 10 ^ k := decExpOf_dvd hk
  have hmul : q.den * ((10:Nat) ^ k / q.den) = 10 ^ k := Nat.mul_div_cancel' hdvd
  have hmpos : 0 < (10:Nat) ^ k / q.den := by
    rcases Nat.eq_zero_or_pos ((10:Nat) ^ k / q.den) with h | h
    · have h10pos : 0 < (10:Nat) ^ k := pow_pos (by norm_num) k
      rw [h, Nat.mul_zero] at hmul
      omega
    · exact h
  have haq : (((q.num * (((10:Nat) ^ k / q.den : Nat) : Int)).natAbs : ℚ)) / ((10:ℚ) ^ k)
      = |q| := by
    rw [Int.natAbs_mul, Int.natAbs_ofNat, Nat.cast_mul]
    have h2 : ((10:ℚ) ^ k) = (q.den : ℚ) * (((10:Nat) ^ k / q.den : Nat) : ℚ) := by
      exact_mod_cast congrArg (fun n : ℕ => ((n : ℕ) : ℚ)) hmul.symm
    rw [h2, abs_rat_eq,
      mul_div_mul_right _ _
        (show (((10:Nat) ^ k / q.den : Nat) : ℚ) ≠ 0 by exact_mod_cast hmpos.ne')]
  simp only [formatRatF, hk, goParseFloatCh, parseDecF_formatDecParts]
  by_cases hneg : q.num < 0
  · have hq : q < 0 := by
      by_contra hq
      have := (Rat.num_nonneg (q := q)).mpr (not_lt.mp hq)
      omega
    simp only [hneg, decide_True, if_true, haq, abs_of_neg hq]
    ring_nf
  · have hq : 0 ≤ q := (Rat.num_nonneg (q := q)).mp (not_lt.mp hneg)
    simp only [hneg, decide_False, if_false, Bool.false_eq_true, one_mul, haq,
      abs_of_nonneg hq]

/-! ### strconv.ParseBool -/

/-- Model of `strconv.ParseBool`: exactly the twelve Go literals; Go
returns `false` together with a syntax error otherwise. -/
def goParseBool (s : String) : Bool × Option GoErr :=
  if s = "1" ∨ s = "t" ∨ s = "T" ∨ s = "TRUE" ∨ s = "true" ∨ s = "True" then (true, none)
  else if s = "0" ∨ s = "f" ∨ s = "F" ∨ s = "FALSE" ∨ s = "false" ∨ s = "False" then
    (false, none)
  else (false, some .numSyntax)

/-! ### time.Time model, the two package layouts, and RFC 3339 -/

/-- Civil date-time model of `time.Time` (process-local timezone fixed to
UTC; monotonic clock readings not modelled). -/
structure GoTime where
  year : Nat
  month : Nat
  day : Nat
  hour : Nat
  minute : Nat
  second : Nat
  nsec : Nat
deriving DecidableEq, Repr

/-- Go's zero `time.Time`: January 1, year 1, 00:00:00 UTC. -/
def zeroGoTime : GoTime := ⟨1, 1, 1, 0, 0, 0, 0⟩

/-- `time.Time.IsZero`. -/
def GoTime.isZero (t : GoTime) : Bool := t = zeroGoTime

def pad2L (n : Nat) : List Char := [digitChar (n / 10 % 10), digitChar (n % 10)]

def pad4L (n : Nat) : List Char := pad2L (n / 100) ++ pad2L (n % 100)

/-- `t.Format(TimeLayOut)` with the package default
`TimeLayOut = "2006-01-02 15:04:05"` (years above 9999 not modelled). -/
def formatDateTimeCh (t : GoTime) : List Char :=
  pad4L t.year ++ '-' :: pad2L t.month ++ '-' :: pad2L t.day ++ ' ' :: pad2L t.hour ++
    ':' :: pad2L t.minute ++ ':' :: pad2L t.second

/-- `t.Format(DateTimeLayOut)` with the package default
`DateTimeLayOut = "2006-01-02"` (the package's date layout). -/
def formatDateCh (t : GoTime) : List Char :=
  pad4L t.year ++ '-' :: pad2L t.month ++ '-' :: pad2L t.day

def readDig : List Char → Option (Nat × List Char)
  | [] => none
  | c :: rest => if isDigitCh c then some (digitVal c, rest) else none

def readLit (x : Char) : List Char → Option (List Char)
  | [] => none
  | c :: rest => if c = x then some rest else none

/-- Read a fixed-width two-digit component. -/
def read2 (cs : List Char) : Option (Nat × List Char) :=
  (readDig cs).bind fun p => (readDig p.2).bind fun q => some (p.1 * 10 + q.1, q.2)

/-- Read a fixed-width four-digit component (the year). -/
def read4 (cs : List Char) : Option (Nat × List Char) :=
  (read2 cs).bind fun p => (read2 p.2).bind fun q => some (p.1 * 100 + q.1, q.2)

def isLeapYear (y : Nat) : Bool := y % 4 = 0 ∧ (y % 100 ≠ 0 ∨ y % 400 = 0)

def daysInMonth (y m : Nat) : Nat :=
  if m = 2 then (if isLeapYear y then 29 else 28)
  else if m = 4 ∨ m = 6 ∨ m = 9 ∨ m = 11 then 30
  else 31

/-- Go's component range validation in `time.Parse`. -/
def mkDateTime (y mo dd hh mi ss : Nat) : Option GoTime :=
  if 1 ≤ mo ∧ mo ≤ 12 ∧ 1 ≤ dd ∧ dd ≤ daysInMonth y mo ∧ hh ≤ 23 ∧ mi ≤ 59 ∧ ss ≤ 59
  then some ⟨y, mo, dd, hh, mi, ss, 0⟩ else none

/-- `time.ParseInLocation(TimeLayOut, s, time.Local)`: fixed-width
`YYYY-MM-DD HH:MM:SS`, with Go's component range validation; a parsed
time has zero nanoseconds. -/
def parseDateTimeCh (cs : List Char) : Option GoTime :=
  (read4 cs).bind fun py =>
  (readLit '-' py.2).bind fun r1 =>
  (read2 r1).bind fun pmo =>
  (readLit '-' pmo.2).bind fun r2 =>
  (read2 r2).bind fun pdd =>
  (readLit ' ' pdd.2).bind fun r3 =>
  (read2 r3).bind fun phh =>
  (readLit ':' phh.2).bind fun r4 =>
  (read2 r4).bind fun pmi =>
  (readLit ':' pmi.2).bind fun r5 =>
  (read2 r5).bind fun pss =>
  if pss.2 = [] then mkDateTime py.1 pmo.1 pdd.1 phh.1 pmi.1 pss.1 else none

/-- The values of `GoTime` representable in the package's fixed layouts. -/
def validDateTime (t : GoTime) : Prop :=
  1 ≤ t.year ∧ t.year ≤ 9999 ∧ 1 ≤ t.month ∧ t.month ≤ 12 ∧ 1 ≤ t.day ∧
    t.day ≤ daysInMonth t.year t.month ∧ t.hour ≤ 23 ∧ t.minute ≤ 59 ∧ t.second ≤ 59

instance (t : GoTime) : Decidable (validDateTime t) := by
  unfold validDateTime
  infer_instance

theorem mod10_lt (n : Nat) : n % 10 < 10 := Nat.mod_lt n (by decide)

theorem readDig_mod10 (n : Nat) (r : List Char) :
    readDig (digitChar (n % 10) :: r) = some (n % 10, r) := by
  simp [readDig, isDigitCh_digitChar (mod10_lt n), digitVal_digitChar (mod10_lt n)]

theorem readDig_zero (r : List Char) : readDig ('0' :: r) = some (0, r) := by
  simp [readDig, isDigitCh, digitVal]

theorem readLit_self (x : Char) (r : List Char) : readLit x (x :: r) = some r := by
  simp [readLit]

theorem read2_pad2L {n : Nat} (h : n < 100) (r : List Char) :
    read2 (pad2L n ++ r) = some (n, r) := by
  have hval : n / 10 % 10 * 10 + n % 10 = n := by omega
  simp [read2, pad2L, readDig_mod10, hval]

theorem read2_pad2L_nil {n : Nat} (h : n < 100) : read2 (pad2L n) = some (n, []) := by
  have := read2_pad2L h ([] : List Char)
  simpa using this

theorem read4_pad4L {n : Nat} (h : n < 10000) (r : List Char) :
    read4 (pad4L n ++ r) = some (n, r) := by
  have hval : n / 100 * 100 + n % 100 = n := by omega
  simp [read4, pad4L, List.append_assoc,
    read2_pad2L (show n / 100 < 100 by omega),
    read2_pad2L (show n % 100 < 100 by omega), hval]

theorem daysInMonth_le_31 (y m : Nat) : daysInMonth y m ≤ 31 := by
  unfold daysInMonth
  by_cases h2 : m = 2
  · by_cases hl : isLeapYear y <;> simp [h2, hl]
  · by_cases h4 : m = 4 ∨ m = 6 ∨ m = 9 ∨ m = 11 <;> simp [h2, h4]

theorem parseDateTimeCh_format (t : GoTime) (h : validDateTime t) :
    parseDateTimeCh (formatDateTimeCh t) = some { t with nsec := 0 } := by
  obtain ⟨h1, h2, h3, h4, h5, h6, h7, h8, h9⟩ := h
  have hd31 := daysInMonth_le_31 t.year t.month
  simp only [parseDateTimeCh, formatDateTimeCh, List.append_assoc, List.cons_append,
    read4_pad4L (show t.year < 10000 by omega),
    read2_pad2L (show t.month < 100 by omega),
    read2_pad2L (show t.day < 100 by omega),
    read2_pad2L (show t.hour < 100 by omega),
    read2_pad2L (show t.minute < 100 by omega),
    read2_pad2L (show t.second < 100 by omega),
    read2_pad2L_nil (show t.second < 100 by omega),
    readLit_self, Option.some_bind]
  rw [if_pos trivial, mkDateTime, if_pos ⟨h3, h4, h5, h6, h7, h8, h9⟩]

theorem read2_zeros (r : List Char) : read2 ('0' :: '0' :: r) = some (0, r) := by
  simp [read2, readDig_zero]

theorem parseDateTimeCh_formatDate (t : GoTime) (h : validDateTime t) :
    parseDateTimeCh (formatDateCh t ++
        ' ' :: '0' :: '0' :: ':' :: '0' :: '0' :: ':' :: '0' :: ['0'])
      = some { t with hour := 0, minute := 0, second := 0, nsec := 0 } := by
  obtain ⟨h1, h2, h3, h4, h5, h6, h7, h8, h9⟩ := h
  have hd31 := daysInMonth_le_31 t.year t.month
  simp only [parseDateTimeCh, formatDateCh, List.append_assoc, List.cons_append,
    read4_pad4L (show t.year < 10000 by omega),
    read2_pad2L (show t.month < 100 by omega),
    read2_pad2L (show t.day < 100 by omega),
    read2_zeros, readLit_self, Option.some_bind]
  rw [if_pos trivial, mkDateTime,
    if_pos ⟨h3, h4, h5, h6, by omega, by omega, by omega⟩]

/-! ### RFC 3339 rendering (`time.Time.MarshalText`) -/

def stripZerosR (cs : List Char) : List Char := (cs.reverse.dropWhile (· == '0')).reverse

def pad9L (n : Nat) : List Char :=
  [digitChar (n / 100000000 % 10), digitChar (n / 10000000 % 10),
    digitChar (n / 1000000 % 10), digitChar (n / 100000 % 10), digitChar (n / 10000 % 10),
    digitChar (n / 1000 % 10), digitChar (n / 100 % 10), digitChar (n / 10 % 10),
    digitChar (n % 10)]

/-- `time.Time.MarshalText` body: RFC 3339 with up to nanosecond precision,
trailing fractional zeros trimmed, `Z` for the UTC offset (the model's fixed
location). -/
def rfc3339Ch (t : GoTime) : List Char :=
  pad4L t.year ++ '-' :: pad2L t.month ++ '-' :: pad2L t.day ++ 'T' :: pad2L t.hour ++
    ':' :: pad2L t.minute ++ ':' :: pad2L t.second ++
    (if t.nsec = 0 then [] else '.' :: stripZerosR (pad9L t.nsec)) ++ ['Z']

/-! ### Generic decoded JSON values and the assumed tokenizer -/

/-- The generic value `json.Unmarshal(data, &v)` produces for
`v : interface{}`, i.e. the dynamic-typed dispatch domain of the decode
methods.  Numbers keep their source token so that `Int`'s re-parse of the
original bytes (avoiding the float64 round-trip) can be modelled. -/
inductive JVal where
  | null
  | bool (b : Bool)
  | num (tok : String)
  | str (s : String)
  | obj (fields : List (String × JVal))
  | arr (elems : List JVal)

/-- JSON number grammar: `-? (0 | [1-9][0-9]*) (. [0-9]+)? ([eE][+-]?[0-9]+)?`. -/
def jsonNumBodyOK (cs : List Char) : Bool :=
  let afterInt : Option (List Char) :=
    match cs with
    | '0' :: rest => some rest
    | c :: rest => if isDigitCh c then some (rest.dropWhile isDigitCh) else none
    | [] => none
  match afterInt with
  | none => false
  | some r1 =>
    let afterFrac : Option (List Char) :=
      match r1 with
      | '.' :: r => if r.takeWhile isDigitCh = [] then none else some (r.dropWhile isDigitCh)
      | other => some other
    match afterFrac with
    | none => false
    | some r2 =>
      match r2 with
      | [] => true
      | e :: r3 =>
        if e = 'e' ∨ e = 'E' then
          let r4 := match r3 with
            | c :: r => if c = '-' ∨ c = '+' then r else c :: r
            | [] => []
          r4 ≠ [] ∧ r4.all isDigitCh ∧ r4.dropWhile isDigitCh = []
        else false

def jsonNumOK (s : String) : Bool :=
  match s.data with
  | '-' :: rest => jsonNumBodyOK rest
  | cs => jsonNumBodyOK cs

/-- Characters that `encoding/json` writes into a quoted string verbatim
(no escaping): printable, not `"`, `\`, `<`, `>`, `&`, and not the
line-separator code points U+2028/U+2029. -/
def jsonSafeCh (c : Char) : Bool :=
  32 ≤ c.toNat && c ≠ '"' && c ≠ '\\' && c ≠ '<' && c ≠ '>' && c ≠ '&' &&
    c.toNat ≠ 8232 && c.toNat ≠ 8233

def jsonSafe (s : String) : Bool := s.data.all jsonSafeCh

/-- `json.Marshal` of a string whose characters need no escaping. -/
def jsonQuoteCh (cs : List Char) : List Char := '"' :: (cs ++ ['"'])

/-- Read the body of a quoted token with no escapes: the content up to a
closing quote that must end the token. -/
def strBody : List Char → Option (List Char)
  | [] => none
  | c :: rest =>
    if c = '"' then if rest = [] then some [] else none
    else if c = '\\' then none
    else match strBody rest with
      | some body => some (c :: body)
      | none => none

/-- Modelled from the spec: the assumed external JSON tokenizer
(`encoding/json`'s scanner), restricted to the token shapes this package's
encoders emit — `null`, `true`, `false`, a number token, or a quoted
string without escapes.  Dispatch is on the first byte, as in the Go
scanner. -/
def tokenize (s : String) : Option JVal :=
  match s.data with
  | [] => none
  | c :: rest =>
    if s = "null" then some .null
    else if s = "true" then some (.bool true)
    else if s = "false" then some (.bool false)
    else if c = '"' then
      match strBody rest with
      | some body => some (.str (String.mk body))
      | none => none
    else if c = '-' ∨ isDigitCh c then some (.num s)
    else none

/-! ### zero.Int (src/int.go) -/

/-- `Int` (int.go): embeds `sql.NullInt64 {Int64 int64; Valid bool}`. -/
structure ZInt where
  Int64 : Int
  Valid : Bool
deriving DecidableEq, Repr

/-- `NewInt` (int.go:26). -/
def NewInt (i : Int) : ZInt := ⟨i, true⟩

/-- ASCII lower-casing of a field name (Go's case-insensitive JSON field
match), defined at the character level so it evaluates in the kernel. -/
def lowerStr (s : String) : String := String.mk (s.data.map lowCh)

/-- One field of `json.Unmarshal(data, &i.NullInt64)`: standard struct
decoding matches names ASCII case-insensitively (modelled by lower-casing),
ignores unknown fields, and type-checks the value. -/
def setNullInt64Field (st : ZInt) (name : String) (v : JVal) : ZInt × Option GoErr :=
  if lowerStr name = "int64" then
    match v with
    | .num tok =>
      match goParseInt64 tok with
      | (n, none) => ({ st with Int64 := n }, none)
      | (_, some e) => (st, some e)
    | _ => (st, some (.typeErr "cannot unmarshal into field Int64 of type int64"))
  else if lowerStr name = "valid" then
    match v with
    | .bool b => ({ st with Valid := b }, none)
    | _ => (st, some (.typeErr "cannot unmarshal into field Valid of type bool"))
  else (st, none)

/-- `json.Unmarshal(data, &i.NullInt64)` over the decoded object's fields in
order, stopping at the first error. -/
def unmarshalNullInt64 (st : ZInt) : List (String × JVal) → ZInt × Option GoErr
  | [] => (st, none)
  | (n, v) :: rest =>
    match setNullInt64Field st n v with
    | (st2, none) => unmarshalNullInt64 st2 rest
    | (st2, some e) => (st2, some e)

/-- `Int.UnmarshalJSON` (int.go:39-66).  The `float64` case re-parses the
original number token directly as an `int64`; after the switch,
`i.Valid = err == nil`. -/
def ZInt.UnmarshalJSON (i : ZInt) (v : JVal) : ZInt × Option GoErr :=
  match v with
  | .num tok =>
    match goParseInt64 tok with
    | (n, none) => (⟨n, true⟩, none)
    | (_, some _) =>
      (⟨i.Int64, false⟩, some (.typeErr "cannot unmarshal number into int64"))
  | .str x =>
    if x = "" then (⟨i.Int64, false⟩, none)
    else
      match goParseInt64 x with
      | (n, none) => (⟨n, true⟩, none)
      | (n, some e) => (⟨n, false⟩, some e)
  | .obj fields =>
    match unmarshalNullInt64 i fields with
    | (st, none) => (⟨st.Int64, true⟩, none)
    | (st, some e) => (⟨st.Int64, false⟩, some e)
  | .null => (⟨i.Int64, false⟩, none)
  | .bool _ =>
    (⟨i.Int64, false⟩, some (.typeErr "cannot unmarshal bool into Go value of type zero.Int"))
  | .arr _ =>
    (⟨i.Int64, false⟩, some (.typeErr "cannot unmarshal array into Go value of type zero.Int"))

/-- `Int.UnmarshalText` (int.go:71-81): `i.Int64, err = strconv.ParseInt`
(assigned even on error), `i.Valid = (err == nil) && (i.Int64 != 0)`. -/
def ZInt.UnmarshalText (i : ZInt) (text : String) : ZInt × Option GoErr :=
  if text = "" ∨ text = "null" then (⟨i.Int64, false⟩, none)
  else
    match goParseInt64 text with
    | (n, none) => (⟨n, decide (n ≠ 0)⟩, none)
    | (n, some e) => (⟨n, false⟩, some e)

/-- `Int.MarshalJSON` (int.go:85-91). -/
def ZInt.MarshalJSON (i : ZInt) : Except GoErr String :=
  if !i.Valid then .ok "null" else .ok (String.mk (formatInt i.Int64))

/-- `Int.MarshalText` (int.go:95-101). -/
def ZInt.MarshalText (i : ZInt) : Except GoErr String :=
  if !i.Valid then .ok "null" else .ok (String.mk (formatInt i.Int64))

/-- `Int.SetValid` (int.go:104). -/
def ZInt.SetValid (_ : ZInt) (n : Int) : ZInt := ⟨n, true⟩

/-- `Int.IsNil` (int.go:118-120). -/
def ZInt.IsNil (i : ZInt) : Bool := !i.Valid

/-! ### zero.Float (src/unnamed/part_001) -/

/-- `Float` (part_001): embeds `sql.NullFloat64 {Float64 float64; Valid bool}`. -/
structure ZFloat where
  Float64 : F64
  Valid : Bool
deriving DecidableEq, Repr

/-- `NewFloat` (part_001:20). -/
def NewFloat (f : F64) : ZFloat := ⟨f, true⟩

def mathIsInf : F64 → Bool
  | .inf _ => true
  | _ => false

def mathIsNaN : F64 → Bool
  | .nan => true
  | _ => false

def setNullFloat64Field (st : ZFloat) (name : String) (v : JVal) : ZFloat × Option GoErr :=
  if lowerStr name = "float64" then
    match v with
    | .num tok =>
      match goParseFloat tok with
      | (q, none) => ({ st with Float64 := q }, none)
      | (_, some e) => (st, some e)
    | _ => (st, some (.typeErr "cannot unmarshal into field Float64 of type float64"))
  else if lowerStr name = "valid" then
    match v with
    | .bool b => ({ st with Valid := b }, none)
    | _ => (st, some (.typeErr "cannot unmarshal into field Valid of type bool"))
  else (st, none)

def unmarshalNullFloat64 (st : ZFloat) : List (String × JVal) → ZFloat × Option GoErr
  | [] => (st, none)
  | (n, v) :: rest =>
    match setNullFloat64Field st n v with
    | (st2, none) => unmarshalNullFloat64 st2 rest
    | (st2, some e) => (st2, some e)

/-- `Float.UnmarshalJSON` (part_001:33-59); after the switch,
`f.Valid = err == nil`.  In the `float64` case the decoded number is
assigned directly (the tokenizer guarantees the token parses). -/
def ZFloat.UnmarshalJSON (f : ZFloat) (v : JVal) : ZFloat × Option GoErr :=
  match v with
  | .num tok => (⟨(goParseFloat tok).1, true⟩, none)
  | .str x =>
    if x = "" then (⟨f.Float64, false⟩, none)
    else
      match goParseFloat x with
      | (q, none) => (⟨q, true⟩, none)
      | (q, some e) => (⟨q, false⟩, some e)
  | .obj fields =>
    match unmarshalNullFloat64 f fields with
    | (st, none) => (⟨st.Float64, true⟩, none)
    | (st, some e) => (⟨st.Float64, false⟩, some e)
  | .null => (⟨f.Float64, false⟩, none)
  | .bool _ =>
    (⟨f.Float64, false⟩, some (.typeErr "cannot unmarshal bool into Go value of type zero.Float"))
  | .arr _ =>
    (⟨f.Float64, false⟩, some (.typeErr "cannot unmarshal array into Go value of type zero.Float"))

/-- `Float.UnmarshalText` (part_001:64-74): `f.Float64, err = strconv.ParseFloat`,
`f.Valid = (err == nil) && (f.Float64 != 0)`. -/
def ZFloat.UnmarshalText (f : ZFloat) (text : String) : ZFloat × Option GoErr :=
  if text = "" ∨ text = "null" then (⟨f.Float64, false⟩, none)
  else
    match goParseFloat text with
    | (q, none) => (⟨q, decide (q ≠ .finite 0)⟩, none)
    | (q, some e) => (⟨q, false⟩, some e)

/-- `Float.MarshalJSON` (part_001:78-90): `null` when invalid;
`json.UnsupportedValueError` for a present Inf/NaN. -/
def ZFloat.MarshalJSON (f : ZFloat) : Except GoErr String :=
  if !f.Valid then .ok "null"
  else if mathIsInf f.Float64 || mathIsNaN f.Float64 then .error .unsupportedValue
  else .ok (String.mk (goFormatFloat f.Float64))

/-- `Float.MarshalText` (part_001:94-100): no Inf/NaN check. -/
def ZFloat.MarshalText (f : ZFloat) : Except GoErr String :=
  if !f.Valid then .ok "null" else .ok (String.mk (goFormatFloat f.Float64))

/-- `sql.NullFloat64.Value` (the driver.Valuer `Float` inherits by
embedding): NULL when invalid, else the raw float64. -/
def ZFloat.Value (f : ZFloat) : Option F64 := if f.Valid then some f.Float64 else none

/-- `Float.SetValid` (part_001:103). -/
def ZFloat.SetValid (_ : ZFloat) (v : F64) : ZFloat := ⟨v, true⟩

/-- `Float.IsNil` (part_001:117-119). -/
def ZFloat.IsNil (f : ZFloat) : Bool := !f.Valid

/-! ### zero.Bool (src/unnamed/part_002) -/

/-- `Bool` (part_002): embeds `sql.NullBool {Bool bool; Valid bool}`.
(The `Valid` field is declared first so the `Bool` field's type reference
stays unambiguous in Lean; the Go struct is the same unordered pair.) -/
structure ZBool where
  Valid : Bool
  Bool : Bool
deriving DecidableEq, Repr

/-- Alias for `Bool`, used in `ZBool` method signatures where the structure
field named `Bool` would otherwise shadow the type. -/
abbrev GoBool := Bool

/-- `NewBool` (part_002:27). -/
def NewBool (b : Bool) : ZBool := ⟨true, b⟩

def setNullBoolField (st : ZBool) (name : String) (v : JVal) : ZBool × Option GoErr :=
  if lowerStr name = "bool" then
    match v with
    | .bool b => ({ st with Bool := b }, none)
    | _ => (st, some (.typeErr "cannot unmarshal into field Bool of type bool"))
  else if lowerStr name = "valid" then
    match v with
    | .bool b => ({ st with Valid := b }, none)
    | _ => (st, some (.typeErr "cannot unmarshal into field Valid of type bool"))
  else (st, none)

def unmarshalNullBool (st : ZBool) : List (String × JVal) → ZBool × Option GoErr
  | [] => (st, none)
  | (n, v) :: rest =>
    match setNullBoolField st n v with
    | (st2, none) => unmarshalNullBool st2 rest
    | (st2, some e) => (st2, some e)

/-- `Bool.UnmarshalJSON` (part_002:39-65); after the switch,
`b.Valid = err == nil` (so a successfully decoded object forces
`Valid = true`).  `strconv.ParseBool` returns `false` with an error. -/
def ZBool.UnmarshalJSON (b : ZBool) (v : JVal) : ZBool × Option GoErr :=
  match v with
  | .bool x => (⟨true, x⟩, none)
  | .obj fields =>
    match unmarshalNullBool b fields with
    | (st, none) => (⟨true, st.Bool⟩, none)
    | (st, some e) => (⟨false, st.Bool⟩, some e)
  | .null => (⟨false, b.Bool⟩, none)
  | .str x =>
    if x = "" then (⟨false, b.Bool⟩, none)
    else
      match goParseBool x with
      | (w, none) => (⟨true, w⟩, none)
      | (w, some e) => (⟨false, w⟩, some e)
  | .num _ =>
    (⟨false, b.Bool⟩, some (.typeErr "cannot unmarshal number into Go value of type zero.Bool"))
  | .arr _ =>
    (⟨false, b.Bool⟩, some (.typeErr "cannot unmarshal array into Go value of type zero.Bool"))

/-- `Bool.UnmarshalText` (part_002:70-96): the six-literal switch; the
default branch clears only `Valid` and errors. -/
def ZBool.UnmarshalText (b : ZBool) (text : String) : ZBool × Option GoErr :=
  if text = "" ∨ text = "null" then (⟨false, false⟩, none)
  else if text = "true" then (⟨true, true⟩, none)
  else if text = "false" then (⟨true, false⟩, none)
  else if text = "1" then (⟨true, true⟩, none)
  else if text = "0" then (⟨true, false⟩, none)
  else (⟨false, b.Bool⟩, some (.custom ("invalid input:" ++ text)))

/-- `Bool.MarshalJSON` (part_002:100-108). -/
def ZBool.MarshalJSON (b : ZBool) : Except GoErr String :=
  if !b.Valid then .ok "null" else if !b.Bool then .ok "false" else .ok "true"

/-- `Bool.MarshalText` (part_002:112-120). -/
def ZBool.MarshalText (b : ZBool) : Except GoErr String :=
  if !b.Valid then .ok "null" else if !b.Bool then .ok "false" else .ok "true"

/-- `Bool.SetValid` (part_002:123). -/
def ZBool.SetValid (_ : ZBool) (v : GoBool) : ZBool := ⟨true, v⟩

/-- `Bool.IsNil` (part_002:137-139). -/
def ZBool.IsNil (b : ZBool) : GoBool := !b.Valid

/-! ### String (src/string.go) -/

/-- `sql.NullString` (declared `Valid` first, see `ZBool`). -/
structure NullString where
  Valid : Bool
  String : String
deriving DecidableEq, Repr

/-- `String` (string.go): wraps `sql.NullString` in field `s`. -/
structure ZString where
  s : NullString
deriving DecidableEq, Repr

def trimSpaces (cs : List Char) : List Char :=
  ((cs.dropWhile (· == ' ')).reverse.dropWhile (· == ' ')).reverse

/-- `TrimFormatStr` (string.go:110-118): trim leading/trailing spaces, then
delete every `\n` and `\r`. -/
def TrimFormatStr (str : String) : String :=
  String.mk ((trimSpaces str.data).filter (fun c => c ≠ '\n' && c ≠ '\r'))

/-- `NewString` (string.go:15-26). -/
def NewString (str : String) : ZString :=
  if str = "" then ⟨⟨false, ""⟩⟩ else ⟨⟨true, TrimFormatStr str⟩⟩

/-- `String.Reset` (string.go:46-49). -/
def ZString.Reset (_ : ZString) : ZString := ⟨⟨false, ""⟩⟩

/-- `String.Set` (string.go:52-55): no trimming, no empty-string collapse. -/
def ZString.Set (_ : ZString) (value : String) : ZString := ⟨⟨true, value⟩⟩

/-- `String.UnmarshalJSON` (string.go:79-91): unmarshals into `*string`
(JSON string or null only; anything else errors, state unchanged). -/
def ZString.UnmarshalJSON (s : ZString) (v : JVal) : ZString × Option GoErr :=
  match v with
  | .null => (⟨⟨false, ""⟩⟩, none)
  | .str x => (⟨⟨true, TrimFormatStr x⟩⟩, none)
  | _ => (s, some (.typeErr "cannot unmarshal value into Go value of type *string"))

/-- `String.MarshalJSON` (string.go:71-76).  `json.Marshal` of the string
emits exactly the quoted content when no character needs escaping (the
escaping encoder is the assumed external JSON codec). -/
def ZString.MarshalJSON (s : ZString) : Except GoErr String :=
  if !s.s.Valid then .ok "null" else .ok (String.mk (jsonQuoteCh s.s.String.data))

/-- `String.Value` (string.go:94-99). -/
def ZString.Value (s : ZString) : Option String :=
  if !s.s.Valid then none else some s.s.String

/-- `String.IsNil` (string.go:101-103). -/
def ZString.IsNil (s : ZString) : Bool := !s.s.Valid || s.s.String == ""

/-! ### Time (src/time.go) and Date (src/unnamed/part_000) -/

/-- `Time` (time.go:24-27). -/
structure ZTime where
  Time : GoTime
  Valid : Bool
deriving DecidableEq, Repr

/-- `NewTime` (time.go:54). -/
def NewTime (t : GoTime) : ZTime := ⟨t, true⟩

/-- `Time.Value` (time.go:46-51). -/
def ZTime.Value (t : ZTime) : Option GoTime := if !t.Valid then none else some t.Time

/-- `Time.MarshalJSON` (time.go:64-69): `json.Marshal(t.Time.Format(TimeLayOut))`
(the layout output contains no character needing escapes). -/
def ZTime.MarshalJSON (t : ZTime) : Except GoErr String :=
  if !t.Valid then .ok "null"
  else .ok (String.mk (jsonQuoteCh (formatDateTimeCh t.Time)))

/-- `Time.UnmarshalText` (time.go:105-119): on a parse error the receiver is
left unchanged and the error propagated. -/
def ZTime.UnmarshalText (t : ZTime) (text : String) : ZTime × Option GoErr :=
  if text = "" ∨ text = "null" then (⟨t.Time, false⟩, none)
  else
    match parseDateTimeCh text.data with
    | some tt => (⟨tt, true⟩, none)
    | none => (t, some (.custom "cannot parse time"))

/-- `Time.UnmarshalJSON` (time.go:74-93): string delegates to UnmarshalText,
null zeroes the value, anything else is the fixed unsupported-type error. -/
def ZTime.UnmarshalJSON (t : ZTime) (v : JVal) : ZTime × Option GoErr :=
  match v with
  | .str x => t.UnmarshalText x
  | .null => (⟨zeroGoTime, false⟩, none)
  | _ => (t, some (.custom "不支持的序列化类型"))

/-- `Time.MarshalText` (time.go:96-102): `time.Time.MarshalText` of the
value, with the zero time substituted when invalid (RFC 3339; errors only
for years outside [0,9999]). -/
def ZTime.MarshalText (t : ZTime) : Except GoErr String :=
  let ti := if !t.Valid then zeroGoTime else t.Time
  if ti.year ≤ 9999 then .ok (String.mk (rfc3339Ch ti))
  else .error (.custom "Time.MarshalText: year outside of range [0,9999]")

/-- `Time.SetValid` (time.go:123-126). -/
def ZTime.SetValid (_ : ZTime) (v : GoTime) : ZTime := ⟨v, true⟩

/-- `Time.IsNil` (time.go:138-140). -/
def ZTime.IsNil (t : ZTime) : Bool := !t.Valid || t.Time.isZero

/-- `Date` (part_000:17-20). -/
structure ZDate where
  Time : GoTime
  Valid : Bool
deriving DecidableEq, Repr

/-- `NewDate` (part_000:47-52): note the source returns a `Time`, not a
`Date`. -/
def NewDate (t : GoTime) : ZTime := ⟨t, true⟩

/-- `Date.Value` (part_000:39-44). -/
def ZDate.Value (t : ZDate) : Option GoTime := if !t.Valid then none else some t.Time

/-- `Date.MarshalJSON` (part_000:57-62): renders only the date layout
`DateTimeLayOut = "2006-01-02"`. -/
def ZDate.MarshalJSON (t : ZDate) : Except GoErr String :=
  if !t.Valid then .ok "null"
  else .ok (String.mk (jsonQuoteCh (formatDateCh t.Time)))

/-- `Date.UnmarshalText` (part_000:98-115): appends `" 00:00:00"` and
parses with the full `TimeLayOut`. -/
def ZDate.UnmarshalText (t : ZDate) (text : String) : ZDate × Option GoErr :=
  if text = "" ∨ text = "null" then (⟨t.Time, false⟩, none)
  else
    match parseDateTimeCh (text ++ " 00:00:00").data with
    | some tt => (⟨tt, true⟩, none)
    | none => (t, some (.custom "cannot parse time"))

/-- `Date.UnmarshalJSON` (part_000:67-86). -/
def ZDate.UnmarshalJSON (t : ZDate) (v : JVal) : ZDate × Option GoErr :=
  match v with
  | .str x => t.UnmarshalText x
  | .null => (⟨zeroGoTime, false⟩, none)
  | _ => (t, some (.custom "不支持的序列化类型"))

/-- `Date.MarshalText` (part_000:89-95): identical to `Time.MarshalText`. -/
def ZDate.MarshalText (t : ZDate) : Except GoErr String :=
  let ti := if !t.Valid then zeroGoTime else t.Time
  if ti.year ≤ 9999 then .ok (String.mk (rfc3339Ch ti))
  else .error (.custom "Time.MarshalText: year outside of range [0,9999]")

/-- `Date.IsNil` (part_000:134-136). -/
def ZDate.IsNil (t : ZDate) : Bool := !t.Valid || t.Time.isZero

/-! ### Byte-level decode: the assumed tokenizer composed with UnmarshalJSON -/

def ZInt.decodeJSONBytes (i : ZInt) (data : String) : ZInt × Option GoErr :=
  match tokenize data with
  | some v => i.UnmarshalJSON v
  | none => (i, some (.typeErr "invalid JSON"))

def ZFloat.decodeJSONBytes (f : ZFloat) (data : String) : ZFloat × Option GoErr :=
  match tokenize data with
  | some v => f.UnmarshalJSON v
  | none => (f, some (.typeErr "invalid JSON"))

def ZBool.decodeJSONBytes (b : ZBool) (data : String) : ZBool × Option GoErr :=
  match tokenize data with
  | some v => b.UnmarshalJSON v
  | none => (b, some (.typeErr "invalid JSON"))

def ZString.decodeJSONBytes (s : ZString) (data : String) : ZString × Option GoErr :=
  match tokenize data with
  | some v => s.UnmarshalJSON v
  | none => (s, some (.typeErr "invalid JSON"))

def ZTime.decodeJSONBytes (t : ZTime) (data : String) : ZTime × Option GoErr :=
  match tokenize data with
  | some v => t.UnmarshalJSON v
  | none => (t, some (.typeErr "invalid JSON"))

def ZDate.decodeJSONBytes (t : ZDate) (data : String) : ZDate × Option GoErr :=
  match tokenize data with
  | some v => t.UnmarshalJSON v
  | none => (t, some (.typeErr "invalid JSON"))

/-- Extract the bytes of a successful marshal (the round-trip statements
only apply it to successful encodes). -/
def encStr : Except GoErr String → String
  | .ok s => s
  | .error _ => ""

/-! ### Tokenizer helper lemmas -/

theorem mk_ne_mk {a b : List Char} (h : a ≠ b) : String.mk a ≠ String.mk b := by
  intro he
  injection he with h1
  exact h h1

theorem strBody_append {body : List Char} (h : ∀ c ∈ body, c ≠ '"' ∧ c ≠ '\\') :
    strBody (body ++ ['"']) = some body := by
  induction body with
  | nil => rfl
  | cons c cs ih =>
    have hc := h c (List.mem_cons_self c cs)
    simp only [List.cons_append, strBody, if_neg hc.1, if_neg hc.2, List.append_eq,
      ih (fun x hx => (h x (List.mem_cons_of_mem c hx)))]

theorem tokenize_quoted {body : List Char} (h : ∀ c ∈ body, c ≠ '"' ∧ c ≠ '\\') :
    tokenize (String.mk ('"' :: (body ++ ['"']))) = some (.str (String.mk body)) := by
  have hnull : String.mk ('"' :: (body ++ ['"'])) ≠ "null" := by
    have he : ("null" : String) = String.mk ['n', 'u', 'l', 'l'] := rfl
    rw [he]
    apply mk_ne_mk
    intro hx
    injection hx with h1 _
    exact absurd h1 (by decide)
  have htrue : String.mk ('"' :: (body ++ ['"'])) ≠ "true" := by
    have he : ("true" : String) = String.mk ['t', 'r', 'u', 'e'] := rfl
    rw [he]
    apply mk_ne_mk
    intro hx
    injection hx with h1 _
    exact absurd h1 (by decide)
  have hfalse : String.mk ('"' :: (body ++ ['"'])) ≠ "false" := by
    have he : ("false" : String) = String.mk ['f', 'a', 'l', 's', 'e'] := rfl
    rw [he]
    apply mk_ne_mk
    intro hx
    injection hx with h1 _
    exact absurd h1 (by decide)
  simp only [tokenize, hnull, htrue, hfalse, if_false, if_true, strBody_append h]

theorem tokenize_num {s : String} {c : Char} {rest : List Char}
    (hcs : s.data = c :: rest) (hc : c = '-' ∨ isDigitCh c = true) :
    tokenize s = some (.num s) := by
  have hq : ¬(c = '"') := by
    rcases hc with h | h
    · subst h; decide
    · intro hx; subst hx; simp [isDigitCh] at h
  have hnull : s ≠ "null" := by
    intro he
    subst he
    have : c = 'n' := by
      have h0 : (['n', 'u', 'l', 'l'] : List Char) = c :: rest := hcs
      injection h0 with h1 _
      exact h1.symm
    subst this
    rcases hc with h | h
    · exact absurd h (by decide)
    · exact absurd h (by decide)
  have htrue : s ≠ "true" := by
    intro he
    subst he
    have : c = 't' := by
      have h0 : (['t', 'r', 'u', 'e'] : List Char) = c :: rest := hcs
      injection h0 with h1 _
      exact h1.symm
    subst this
    rcases hc with h | h
    · exact absurd h (by decide)
    · exact absurd h (by decide)
  have hfalse : s ≠ "false" := by
    intro he
    subst he
    have : c = 'f' := by
      have h0 : (['f', 'a', 'l', 's', 'e'] : List Char) = c :: rest := hcs
      injection h0 with h1 _
      exact h1.symm
    subst this
    rcases hc with h | h
    · exact absurd h (by decide)
    · exact absurd h (by decide)
  simp only [tokenize, hcs, hnull, htrue, hfalse, if_false, hq, hc, if_true, or_true,
    true_or]

/-! ### Concrete ParseFloat evaluations (the kernel cannot normalize
rational division, so these are proved from the structural lemmas) -/

theorem goParseFloat_str_zero : goParseFloat "0" = (.finite 0, none) := by
  have hd : ("0" : String).data = ['0'] := rfl
  have h := @parseDecF_digits ['0'] (by decide) (by decide)
  have hv0 : chListVal ['0'] = 0 := by decide
  have hv : ((chListVal ['0'] : ℕ) : ℚ) = 0 := by rw [hv0]; norm_num
  rw [hv] at h
  rw [goParseFloat, hd, goParseFloatCh, h]

theorem goParseFloat_str_25 : goParseFloat "2.5" = (.finite (5 / 2), none) := by
  have hd : ("2.5" : String).data = ['2', '.', '5'] := rfl
  have h := @parseDecF_frac ['2'] ['5'] (by decide) (by decide) (by decide)
  simp only [List.singleton_append, List.length_singleton, pow_one] at h
  have hv0 : chListVal ['2', '5'] = 25 := by decide
  have hv : ((chListVal ['2', '5'] : ℕ) : ℚ) / 10 = 5 / 2 := by
    rw [hv0]; norm_num
  rw [hv] at h
  rw [goParseFloat, hd, goParseFloatCh, h]

/-! ## Claims -/

/-- C1: for OptionalInt and OptionalFloat, decodeText "0" yields
present=false while decodeJSON of the native JSON number 0 yields
present=true with value 0; and on every JSON-number input on which both
paths parse successfully, the two paths produce different results exactly
when the parsed value is zero. -/
theorem C1_zero_collapse_asymmetry :
    (ZInt.UnmarshalText ⟨0, false⟩ "0" = (⟨0, false⟩, none)) ∧
    (ZFloat.UnmarshalText ⟨.finite 0, false⟩ "0" = (⟨.finite 0, false⟩, none)) ∧
    (ZInt.UnmarshalJSON ⟨0, false⟩ (.num "0") = (⟨0, true⟩, none)) ∧
    (ZFloat.UnmarshalJSON ⟨.finite 0, false⟩ (.num "0") = (⟨.finite 0, true⟩, none)) ∧
    (∀ (s : String) (i₀ : ZInt) (n : Int), jsonNumOK s = true →
      goParseInt64 s = (n, none) →
      ((ZInt.UnmarshalText i₀ s ≠ ZInt.UnmarshalJSON i₀ (.num s)) ↔ n = 0)) ∧
    (∀ (s : String) (f₀ : ZFloat) (v : F64), jsonNumOK s = true →
      goParseFloat s = (v, none) →
      ((ZFloat.UnmarshalText f₀ s ≠ ZFloat.UnmarshalJSON f₀ (.num s)) ↔ v = .finite 0)) := by
  refine ⟨by decide, ?_, by decide, ?_, ?_, ?_⟩
  · rw [ZFloat.UnmarshalText, if_neg (by decide), goParseFloat_str_zero]
    simp
  · simp only [ZFloat.UnmarshalJSON, goParseFloat_str_zero]
  · intro s i₀ n hnum hparse
    have hse : s ≠ "" := by
      intro h; subst h; exact absurd hnum (by decide)
    have hsn : s ≠ "null" := by
      intro h; subst h
      have he : goParseInt64 "null" = (0, some .numSyntax) := by decide
      rw [he] at hparse
      simp at hparse
    simp only [ZInt.UnmarshalText, if_neg (show ¬(s = "" ∨ s = "null") by simp [hse, hsn]),
      hparse, ZInt.UnmarshalJSON]
    by_cases h0 : n = 0 <;> simp [h0]
  · intro s f₀ v hnum hparse
    have hse : s ≠ "" := by
      intro h; subst h; exact absurd hnum (by decide)
    have hsn : s ≠ "null" := by
      intro h; subst h
      have he : goParseFloat "null" = (.finite 0, some .numSyntax) := by decide
      rw [he] at hparse
      simp at hparse
    simp only [ZFloat.UnmarshalText, if_neg (show ¬(s = "" ∨ s = "null") by simp [hse, hsn]),
      hparse, ZFloat.UnmarshalJSON]
    by_cases h0 : v = .finite 0 <;> simp [h0]

/-- C1 witness: the universal parts instantiated at the token "0". -/
theorem C1_zero_collapse_asymmetry_witness :
    (ZInt.UnmarshalText ⟨3, true⟩ "0" ≠ ZInt.UnmarshalJSON ⟨3, true⟩ (.num "0")) ∧
    (ZFloat.UnmarshalText ⟨.finite 3, true⟩ "0" ≠ ZFloat.UnmarshalJSON ⟨.finite 3, true⟩ (.num "0")) ∧
    (ZInt.UnmarshalText ⟨3, true⟩ "7" = ZInt.UnmarshalJSON ⟨3, true⟩ (.num "7")) := by
  refine ⟨?_, ?_, ?_⟩
  · exact (C1_zero_collapse_asymmetry.2.2.2.2.1 "0" ⟨3, true⟩ 0 (by decide) (by decide)).mpr rfl
  · exact (C1_zero_collapse_asymmetry.2.2.2.2.2 "0" ⟨.finite 3, true⟩ (.finite 0) (by decide)
      goParseFloat_str_zero).mpr rfl
  · by_contra hne
    exact absurd ((C1_zero_collapse_asymmetry.2.2.2.2.1 "7" ⟨3, true⟩ 7 (by decide)
      (by decide)).mp hne) (by decide)

/-- C8: OptionalBool decodeText succeeds with present=true exactly on
"true"/"false"/"1"/"0" (no zero-collapse), yields absent without error on
"" and "null", and fails with a decode error on every other input. -/
theorem C8_bool_text_grammar :
    (∀ b₀ : ZBool, ZBool.UnmarshalText b₀ "true" = (⟨true, true⟩, none)) ∧
    (∀ b₀ : ZBool, ZBool.UnmarshalText b₀ "false" = (⟨true, false⟩, none)) ∧
    (∀ b₀ : ZBool, ZBool.UnmarshalText b₀ "1" = (⟨true, true⟩, none)) ∧
    (∀ b₀ : ZBool, ZBool.UnmarshalText b₀ "0" = (⟨true, false⟩, none)) ∧
    (∀ b₀ : ZBool, ZBool.UnmarshalText b₀ "" = (⟨false, false⟩, none)) ∧
    (∀ b₀ : ZBool, ZBool.UnmarshalText b₀ "null" = (⟨false, false⟩, none)) ∧
    (∀ (b₀ : ZBool) (s : String), s ≠ "" → s ≠ "null" → s ≠ "true" → s ≠ "false" →
      s ≠ "1" → s ≠ "0" →
      ZBool.UnmarshalText b₀ s
        = (⟨false, b₀.Bool⟩, some (.custom ("invalid input:" ++ s)))) := by
  refine ⟨fun b₀ => rfl, fun b₀ => rfl, fun b₀ => rfl, fun b₀ => rfl, fun b₀ => rfl,
    fun b₀ => rfl, ?_⟩
  intro b₀ s h1 h2 h3 h4 h5 h6
  rw [ZBool.UnmarshalText, if_neg (by simp [h1, h2]), if_neg h3, if_neg h4, if_neg h5,
    if_neg h6]

/-- C8 witness: the rejection branch at the input "yes". -/
theorem C8_bool_text_grammar_witness :
    ZBool.UnmarshalText ⟨true, true⟩ "yes"
      = (⟨false, true⟩, some (.custom ("invalid input:" ++ "yes"))) :=
  C8_bool_text_grammar.2.2.2.2.2.2 ⟨true, true⟩ "yes" (by decide) (by decide) (by decide)
    (by decide) (by decide) (by decide)

/-- C10: IsNil is exactly the negated presence flag for
OptionalInt/Float/Bool (a present zero or false is not nil), while
OptionalText counts a present empty string as nil and the date/time types
count a present zero timestamp as nil. -/
theorem C10_isnil_semantics :
    (∀ i : ZInt, i.IsNil = !i.Valid) ∧
    (∀ f : ZFloat, f.IsNil = !f.Valid) ∧
    (∀ b : ZBool, b.IsNil = !b.Valid) ∧
    ((NewInt 0).IsNil = false) ∧
    ((NewFloat (.finite 0)).IsNil = false) ∧
    ((NewBool false).IsNil = false) ∧
    (∀ s : ZString, s.IsNil = (!s.s.Valid || s.s.String == "")) ∧
    (ZString.IsNil ⟨⟨true, ""⟩⟩ = true) ∧
    (∀ t : ZTime, t.IsNil = (!t.Valid || t.Time.isZero)) ∧
    (ZTime.IsNil ⟨zeroGoTime, true⟩ = true) ∧
    (∀ t : ZDate, t.IsNil = (!t.Valid || t.Time.isZero)) ∧
    (ZDate.IsNil ⟨zeroGoTime, true⟩ = true) :=
  ⟨fun _ => rfl, fun _ => rfl, fun _ => rfl, rfl, rfl, rfl, fun _ => rfl, rfl,
    fun _ => rfl, by decide, fun _ => rfl, by decide⟩

/-- C7: a present infinite or NaN OptionalFloat fails encodeJSON with the
UnsupportedValueError, while encodeToStorage of the same instance succeeds
with the raw value; every present finite value encodes successfully. -/
theorem C7_float_nonfinite_encode_asymmetry :
    (∀ b : Bool, ZFloat.MarshalJSON ⟨.inf b, true⟩ = .error .unsupportedValue) ∧
    (ZFloat.MarshalJSON ⟨.nan, true⟩ = .error .unsupportedValue) ∧
    (∀ v : F64, ZFloat.Value ⟨v, true⟩ = some v) ∧
    (∀ q : ℚ, ZFloat.MarshalJSON ⟨.finite q, true⟩
      = .ok (String.mk (goFormatFloat (.finite q)))) :=
  ⟨fun _ => rfl, rfl, fun _ => rfl, fun _ => rfl⟩

/-- C6 counterexample: decodeJSON null on an OptionalInt holding 5 leaves
the value 5 in place, so the result differs from the reset state
(present=false, value 0) the claim requires. -/
theorem C6_counterexample :
    ZInt.UnmarshalJSON ⟨5, true⟩ .null = (⟨5, false⟩, none) ∧
    ((⟨5, false⟩ : ZInt) ≠ (⟨0, false⟩ : ZInt)) := by
  exact ⟨rfl, by decide⟩

/-- C6 amended: decodeJSON null succeeds and clears the presence flag for
every type and every starting state, and encodeJSON of the result is the
bytes null; but only OptionalText/DateTime/Date also zero the value —
OptionalInt/Float/Bool retain their previous value. -/
theorem C6_decode_null_presence :
    (∀ i : ZInt, i.UnmarshalJSON .null = (⟨i.Int64, false⟩, none)) ∧
    (∀ i : ZInt, (⟨i.Int64, false⟩ : ZInt).MarshalJSON = .ok "null") ∧
    (∀ f : ZFloat, f.UnmarshalJSON .null = (⟨f.Float64, false⟩, none)) ∧
    (∀ f : ZFloat, (⟨f.Float64, false⟩ : ZFloat).MarshalJSON = .ok "null") ∧
    (∀ b : ZBool, b.UnmarshalJSON .null = (⟨false, b.Bool⟩, none)) ∧
    (∀ b : ZBool, (⟨false, b.Bool⟩ : ZBool).MarshalJSON = .ok "null") ∧
    (∀ s : ZString, s.UnmarshalJSON .null = (s.Reset, none)) ∧
    (∀ s : ZString, s.Reset.MarshalJSON = .ok "null") ∧
    (∀ t : ZTime, t.UnmarshalJSON .null = (⟨zeroGoTime, false⟩, none)) ∧
    ((⟨zeroGoTime, false⟩ : ZTime).MarshalJSON = .ok "null") ∧
    (∀ t : ZDate, t.UnmarshalJSON .null = (⟨zeroGoTime, false⟩, none)) ∧
    ((⟨zeroGoTime, false⟩ : ZDate).MarshalJSON = .ok "null") :=
  ⟨fun _ => rfl, fun _ => rfl, fun _ => rfl, fun _ => rfl, fun _ => rfl, fun _ => rfl,
    fun _ => rfl, fun _ => rfl, fun _ => rfl, rfl, fun _ => rfl, rfl⟩

/-- C4 counterexample: decodeJSON of the object with Int64=7, Valid=false
yields presence true, not the object's presence flag false. -/
theorem C4_counterexample :
    ZInt.UnmarshalJSON ⟨0, false⟩ (.obj [("Int64", .num "7"), ("Valid", .bool false)])
      = (⟨7, true⟩, none) ∧
    (ZInt.UnmarshalJSON ⟨0, false⟩
        (.obj [("Int64", .num "7"), ("Valid", .bool false)])).1.Valid ≠ false := by
  exact ⟨by decide, by decide⟩

/-- C4 amended: a JSON object is decoded as a nested present/value pair and
its value is copied through, but the trailing Valid = (err == nil)
assignment then forces presence to true on every successful object decode,
regardless of the object's own presence flag. -/
theorem C4_object_decode_forces_present :
    (∀ (i : ZInt) (fields : List (String × JVal)) (st : ZInt),
      unmarshalNullInt64 i fields = (st, none) →
      ZInt.UnmarshalJSON i (.obj fields) = (⟨st.Int64, true⟩, none)) ∧
    (∀ (f : ZFloat) (fields : List (String × JVal)) (st : ZFloat),
      unmarshalNullFloat64 f fields = (st, none) →
      ZFloat.UnmarshalJSON f (.obj fields) = (⟨st.Float64, true⟩, none)) ∧
    (∀ (b : ZBool) (fields : List (String × JVal)) (st : ZBool),
      unmarshalNullBool b fields = (st, none) →
      ZBool.UnmarshalJSON b (.obj fields) = (⟨true, st.Bool⟩, none)) := by
  refine ⟨?_, ?_, ?_⟩
  · intro i fields st h
    simp only [ZInt.UnmarshalJSON, h]
  · intro f fields st h
    simp only [ZFloat.UnmarshalJSON, h]
  · intro b fields st h
    simp only [ZBool.UnmarshalJSON, h]

/-- C4 witness: the three legs at an object whose presence flag is false. -/
theorem C4_object_decode_forces_present_witness :
    ZInt.UnmarshalJSON ⟨0, false⟩ (.obj [("Int64", .num "7"), ("Valid", .bool false)])
      = (⟨7, true⟩, none) ∧
    ZFloat.UnmarshalJSON ⟨.finite 0, false⟩
        (.obj [("Float64", .num "2.5"), ("Valid", .bool false)])
      = (⟨.finite (5 / 2), true⟩, none) ∧
    ZBool.UnmarshalJSON ⟨false, false⟩ (.obj [("Bool", .bool true), ("Valid", .bool false)])
      = (⟨true, true⟩, none) :=
  ⟨C4_object_decode_forces_present.1 ⟨0, false⟩ _ ⟨7, false⟩ (by decide),
    C4_object_decode_forces_present.2.1 ⟨.finite 0, false⟩ _ ⟨.finite (5 / 2), false⟩
      (by simp [unmarshalNullFloat64, setNullFloat64Field, lowerStr, lowCh,
        goParseFloat_str_25]),
    C4_object_decode_forces_present.2.2 ⟨false, false⟩ _ ⟨false, true⟩ (by decide)⟩

/-- C5 counterexample: decodeJSON of the JSON string "0" yields
present=true with value 0, while decodeText "0" yields present=false —
the JSON-string path does not collapse parsed zero. -/
theorem C5_counterexample :
    ZInt.UnmarshalJSON ⟨0, false⟩ (.str "0") = (⟨0, true⟩, none) ∧
    ZInt.UnmarshalText ⟨0, false⟩ "0" = (⟨0, false⟩, none) ∧
    (ZInt.UnmarshalJSON ⟨0, false⟩ (.str "0")).1 ≠ (ZInt.UnmarshalText ⟨0, false⟩ "0").1 := by
  exact ⟨by decide, by decide, by decide⟩

/-- C5 amended: the JSON-string path reuses the same scalar parsers but not
the text path's absence rules — only the empty string maps to absent,
"null" is fed to the parser (failing for Int/Float), a parsed zero stays
present, and Bool accepts strconv.ParseBool's larger literal set (e.g. "t")
rather than the four-literal text grammar. -/
theorem C5_json_string_vs_text :
    (∀ (i : ZInt) (s : String) (n : Int), s ≠ "" → goParseInt64 s = (n, none) →
      ZInt.UnmarshalJSON i (.str s) = (⟨n, true⟩, none)) ∧
    (∀ i : ZInt, ZInt.UnmarshalJSON i (.str "") = (⟨i.Int64, false⟩, none)) ∧
    (∀ (f : ZFloat) (s : String) (v : F64), s ≠ "" → goParseFloat s = (v, none) →
      ZFloat.UnmarshalJSON f (.str s) = (⟨v, true⟩, none)) ∧
    (∀ f : ZFloat, ZFloat.UnmarshalJSON f (.str "") = (⟨f.Float64, false⟩, none)) ∧
    (∀ (b : ZBool) (s : String) (w : Bool), s ≠ "" → goParseBool s = (w, none) →
      ZBool.UnmarshalJSON b (.str s) = (⟨true, w⟩, none)) ∧
    (∀ b : ZBool, ZBool.UnmarshalJSON b (.str "") = (⟨false, b.Bool⟩, none)) ∧
    (ZBool.UnmarshalJSON ⟨false, false⟩ (.str "t") = (⟨true, true⟩, none)) ∧
    (ZBool.UnmarshalText ⟨false, false⟩ "t"
      = (⟨false, false⟩, some (.custom ("invalid input:" ++ "t")))) ∧
    (ZInt.UnmarshalJSON ⟨0, false⟩ (.str "null")
      = (⟨0, false⟩, some .numSyntax)) := by
  refine ⟨?_, fun i => rfl, ?_, fun f => rfl, ?_, fun b => rfl, by decide, by decide,
    by decide⟩
  · intro i s n hse hparse
    simp only [ZInt.UnmarshalJSON, if_neg hse, hparse]
  · intro f s v hse hparse
    simp only [ZFloat.UnmarshalJSON, if_neg hse, hparse]
  · intro b s w hse hparse
    simp only [ZBool.UnmarshalJSON, if_neg hse, hparse]

/-- C5 witness: the universal legs instantiated at "0" (Int), "2.5"
(Float) and "t" (Bool). -/
theorem C5_json_string_vs_text_witness :
    ZInt.UnmarshalJSON ⟨9, false⟩ (.str "0") = (⟨0, true⟩, none) ∧
    ZFloat.UnmarshalJSON ⟨.finite 9, false⟩ (.str "2.5") = (⟨.finite (5 / 2), true⟩, none) ∧
    ZBool.UnmarshalJSON ⟨false, false⟩ (.str "t") = (⟨true, true⟩, none) :=
  ⟨C5_json_string_vs_text.1 ⟨9, false⟩ "0" 0 (by decide) (by decide),
    C5_json_string_vs_text.2.2.1 ⟨.finite 9, false⟩ "2.5" (.finite (5 / 2)) (by decide)
      goParseFloat_str_25,
    C5_json_string_vs_text.2.2.2.2.1 ⟨false, false⟩ "t" true (by decide) (by decide)⟩

/-- C3 counterexample: encodeText of an absent OptionalDateTime returns the
RFC 3339 rendering of the zero time, not the bytes null. -/
theorem C3_counterexample :
    ZTime.MarshalText ⟨zeroGoTime, false⟩ = .ok "0001-01-01T00:00:00Z" ∧
    ("0001-01-01T00:00:00Z" : String) ≠ "null" := by
  exact ⟨rfl, by decide⟩

/-- C3 amended: encodeText renders absence as null for
OptionalInt/Float/Bool, and for present values mirrors encodeJSON exactly
(for OptionalFloat only when the value is finite — a present Inf/NaN
text-encodes while JSON-encoding fails); but OptionalDateTime and
OptionalDate render via time.Time.MarshalText with the zero time
substituted when absent, so an absent value encodes as
"0001-01-01T00:00:00Z", never null. -/
theorem C3_text_absent_rendering :
    (∀ i : ZInt, i.Valid = false → i.MarshalText = .ok "null") ∧
    (∀ f : ZFloat, f.Valid = false → f.MarshalText = .ok "null") ∧
    (∀ b : ZBool, b.Valid = false → b.MarshalText = .ok "null") ∧
    (∀ i : ZInt, i.MarshalText = i.MarshalJSON) ∧
    (∀ b : ZBool, b.MarshalText = b.MarshalJSON) ∧
    (∀ f : ZFloat, mathIsInf f.Float64 = false → mathIsNaN f.Float64 = false →
      f.MarshalText = f.MarshalJSON) ∧
    (∀ t : ZTime, t.Valid = false → t.MarshalText = .ok "0001-01-01T00:00:00Z") ∧
    (∀ t : ZDate, t.Valid = false → t.MarshalText = .ok "0001-01-01T00:00:00Z") := by
  refine ⟨?_, ?_, ?_, fun i => rfl, fun b => rfl, ?_, ?_, ?_⟩
  · intro i h
    simp [ZInt.MarshalText, ZInt.MarshalJSON, h]
  · intro f h
    simp [ZFloat.MarshalText, ZFloat.MarshalJSON, h]
  · intro b h
    simp [ZBool.MarshalText, ZBool.MarshalJSON, h]
  · intro f h1 h2
    simp [ZFloat.MarshalText, ZFloat.MarshalJSON, h1, h2]
  · intro t h
    simp only [ZTime.MarshalText, h, Bool.not_false, if_true]
    rfl
  · intro t h
    simp only [ZDate.MarshalText, h, Bool.not_false, if_true]
    rfl

/-- C3 witness: the absent-instance legs at concrete absent states, and the
mirroring legs at a present value. -/
theorem C3_text_absent_rendering_witness :
    ZInt.MarshalText ⟨41, false⟩ = .ok "null" ∧
    ZFloat.MarshalText ⟨.nan, false⟩ = .ok "null" ∧
    ZBool.MarshalText ⟨false, true⟩ = .ok "null" ∧
    ZFloat.MarshalText ⟨.finite 1, true⟩ = ZFloat.MarshalJSON ⟨.finite 1, true⟩ ∧
    ZTime.MarshalText ⟨⟨2024, 3, 5, 13, 0, 0, 0⟩, false⟩ = .ok "0001-01-01T00:00:00Z" ∧
    ZDate.MarshalText ⟨⟨2024, 3, 5, 0, 0, 0, 0⟩, false⟩ = .ok "0001-01-01T00:00:00Z" :=
  ⟨C3_text_absent_rendering.1 ⟨41, false⟩ rfl,
    C3_text_absent_rendering.2.1 ⟨.nan, false⟩ rfl,
    C3_text_absent_rendering.2.2.1 ⟨false, true⟩ rfl,
    C3_text_absent_rendering.2.2.2.2.2.1 ⟨.finite 1, true⟩ rfl rfl,
    C3_text_absent_rendering.2.2.2.2.2.2.1 ⟨⟨2024, 3, 5, 13, 0, 0, 0⟩, false⟩ rfl,
    C3_text_absent_rendering.2.2.2.2.2.2.2 ⟨⟨2024, 3, 5, 0, 0, 0, 0⟩, false⟩ rfl⟩

/-- C9: OptionalDate encodeJSON renders only the date layout (2024-03-05
encodes to the quoted string "2024-03-05"), while decodeText of a
non-empty, non-"null" input appends " 00:00:00" and parses it with the
full DateTime layout, setting present=true on success. -/
theorem C9_date_layout_and_parse :
    (∀ t : GoTime, ZDate.MarshalJSON ⟨t, true⟩
      = .ok (String.mk (jsonQuoteCh (formatDateCh t)))) ∧
    (ZDate.MarshalJSON ⟨⟨2024, 3, 5, 0, 0, 0, 0⟩, true⟩ = .ok "\"2024-03-05\"") ∧
    (∀ (d : ZDate) (s : String), s ≠ "" → s ≠ "null" →
      ZDate.UnmarshalText d s
        = (match parseDateTimeCh (s ++ " 00:00:00").data with
           | some tt => (⟨tt, true⟩, none)
           | none => (d, some (.custom "cannot parse time")))) ∧
    (∀ (d : ZDate) (s : String) (tt : GoTime), s ≠ "" → s ≠ "null" →
      parseDateTimeCh (s ++ " 00:00:00").data = some tt →
      ZDate.UnmarshalText d s = (⟨tt, true⟩, none)) ∧
    (ZDate.UnmarshalText ⟨zeroGoTime, false⟩ "2024-03-05"
      = (⟨⟨2024, 3, 5, 0, 0, 0, 0⟩, true⟩, none)) := by
  refine ⟨fun t => rfl, rfl, ?_, ?_, ?_⟩
  · intro d s h1 h2
    rw [ZDate.UnmarshalText, if_neg (by simp [h1, h2])]
  · intro d s tt h1 h2 hp
    rw [ZDate.UnmarshalText, if_neg (by simp [h1, h2]), hp]
  · rfl

/-- C9 witness: decodeText at the input "2024-03-05". -/
theorem C9_date_layout_and_parse_witness :
    ZDate.UnmarshalText ⟨zeroGoTime, true⟩ "2024-03-05"
      = (⟨⟨2024, 3, 5, 0, 0, 0, 0⟩, true⟩, none) :=
  C9_date_layout_and_parse.2.2.2.1 ⟨zeroGoTime, true⟩ "2024-03-05"
    ⟨2024, 3, 5, 0, 0, 0, 0⟩ (by decide) (by decide) (by decide)

/-! ### Round-trip supporting lemmas (C2) -/

theorem formatInt_shape (n : Int) :
    ∃ c rest, formatInt n = c :: rest ∧ (c = '-' ∨ isDigitCh c = true) := by
  by_cases hn : n < 0
  · exact ⟨'-', natReprCh n.natAbs, by simp [formatInt, hn], Or.inl rfl⟩
  · obtain ⟨c, cs, hcs⟩ := list_ex_cons (natReprCh_ne_nil n.natAbs)
    exact ⟨c, cs, by simp [formatInt, hn, hcs],
      Or.inr (natReprCh_all_digits _ c (hcs ▸ List.mem_cons_self c cs))⟩

theorem formatDecParts_shape (neg : Bool) (a k : Nat) :
    ∃ c rest, formatDecParts neg a k = c :: rest ∧ (c = '-' ∨ isDigitCh c = true) := by
  cases neg with
  | true =>
    exact ⟨'-', _, rfl, Or.inl rfl⟩
  | false =>
    by_cases hk0 : k = 0
    · obtain ⟨c, cs, hcs⟩ := list_ex_cons (natReprCh_ne_nil a)
      exact ⟨c, cs, by simp [formatDecParts, hk0, hcs],
        Or.inr (natReprCh_all_digits _ c (hcs ▸ List.mem_cons_self c cs))⟩
    · obtain ⟨c, cs, hcs⟩ := list_ex_cons (natReprCh_ne_nil (a / 10 ^ k))
      exact ⟨c, cs ++ '.' :: padDigits k (a % 10 ^ k),
        by simp [formatDecParts, hk0, hcs],
        Or.inr (natReprCh_all_digits _ c (hcs ▸ List.mem_cons_self c cs))⟩

theorem C2_int_leg (st : ZInt) (n : Int) (h1 : -(2 ^ 63) ≤ n) (h2 : n ≤ 2 ^ 63 - 1) :
    ZInt.decodeJSONBytes st (encStr (NewInt n).MarshalJSON) = (NewInt n, none) := by
  have henc : encStr (NewInt n).MarshalJSON = String.mk (formatInt n) := rfl
  rw [henc]
  obtain ⟨c, rest, hsh, hc⟩ := formatInt_shape n
  have hdata : (String.mk (formatInt n)).data = c :: rest := hsh
  have hp : goParseInt64 (String.mk (formatInt n)) = (n, none) :=
    goParseInt64Ch_formatInt n h1 h2
  simp only [ZInt.decodeJSONBytes, tokenize_num hdata hc, ZInt.UnmarshalJSON, hp]
  rfl

theorem C2_float_leg (st : ZFloat) (q : ℚ) (h : (decExpOf q.den).isSome = true) :
    ZFloat.decodeJSONBytes st (encStr (NewFloat (.finite q)).MarshalJSON)
      = (NewFloat (.finite q), none) := by
  obtain ⟨k, hk⟩ := Option.isSome_iff_exists.mp h
  have henc : encStr (NewFloat (.finite q)).MarshalJSON = String.mk (formatRatF q) := rfl
  rw [henc]
  have hshape : ∃ c rest, formatRatF q = c :: rest ∧ (c = '-' ∨ isDigitCh c = true) := by
    rw [formatRatF]
    rw [hk]
    exact formatDecParts_shape _ _ _
  obtain ⟨c, rest, hsh, hc⟩ := hshape
  have hdata : (String.mk (formatRatF q)).data = c :: rest := hsh
  have hp : goParseFloat (String.mk (formatRatF q)) = (.finite q, none) :=
    goParseFloatCh_formatRatF q hk
  simp only [ZFloat.decodeJSONBytes, tokenize_num hdata hc, ZFloat.UnmarshalJSON, hp]
  rfl

theorem C2_bool_leg (st : ZBool) (b : Bool) :
    ZBool.decodeJSONBytes st (encStr (NewBool b).MarshalJSON) = (NewBool b, none) := by
  cases b <;> rfl

theorem jsonSafe_quote_free {v : String} (hsafe : jsonSafe v = true) :
    ∀ c ∈ v.data, c ≠ '"' ∧ c ≠ '\\' := by
  intro c hc
  have h := List.all_eq_true.mp hsafe c hc
  simp only [jsonSafeCh, Bool.and_eq_true, decide_eq_true_eq] at h
  exact ⟨h.1.1.1.1.1.1.2, h.1.1.1.1.1.2⟩

theorem C2_string_leg (st : ZString) (v : String) (hne : v ≠ "")
    (hT : TrimFormatStr v = v) (hsafe : jsonSafe v = true) :
    ZString.decodeJSONBytes st (encStr (NewString v).MarshalJSON) = (NewString v, none) := by
  have hnew : NewString v = ⟨⟨true, v⟩⟩ := by rw [NewString, if_neg hne, hT]
  have henc : encStr (NewString v).MarshalJSON = String.mk ('"' :: (v.data ++ ['"'])) := by
    rw [hnew]; rfl
  rw [henc]
  simp only [ZString.decodeJSONBytes, tokenize_quoted (jsonSafe_quote_free hsafe),
    ZString.UnmarshalJSON]
  show ((⟨⟨true, TrimFormatStr v⟩⟩ : ZString), (none : Option GoErr)) = (NewString v, none)
  rw [hT, hnew]

theorem C2_string_empty_leg (st : ZString) :
    ZString.decodeJSONBytes st (encStr (NewString "").MarshalJSON) = (NewString "", none) :=
  rfl

theorem pad2L_chars (n : Nat) : ∀ c ∈ pad2L n, isDigitCh c = true := by
  intro c hc
  simp only [pad2L, List.mem_cons, List.not_mem_nil, or_false] at hc
  rcases hc with rfl | rfl
  · exact isDigitCh_digitChar (mod10_lt _)
  · exact isDigitCh_digitChar (mod10_lt _)

theorem pad4L_chars (n : Nat) : ∀ c ∈ pad4L n, isDigitCh c = true := by
  intro c hc
  rcases List.mem_append.mp hc with h | h
  · exact pad2L_chars _ c h
  · exact pad2L_chars _ c h

theorem formatDateTimeCh_chars (t : GoTime) :
    ∀ c ∈ formatDateTimeCh t, isDigitCh c = true ∨ c = '-' ∨ c = ' ' ∨ c = ':' := by
  intro c hc
  simp only [formatDateTimeCh, List.mem_append, List.mem_cons, or_assoc] at hc
  rcases hc with h | h | h | h | h | h | h | h | h | h | h <;>
    first
      | exact Or.inl (pad4L_chars _ c h)
      | exact Or.inl (pad2L_chars _ c h)
      | (subst h; simp)

theorem formatDateCh_chars (t : GoTime) :
    ∀ c ∈ formatDateCh t, isDigitCh c = true ∨ c = '-' ∨ c = ' ' ∨ c = ':' := by
  intro c hc
  simp only [formatDateCh, List.mem_append, List.mem_cons, or_assoc] at hc
  rcases hc with h | h | h | h | h <;>
    first
      | exact Or.inl (pad4L_chars _ c h)
      | exact Or.inl (pad2L_chars _ c h)
      | (subst h; simp)

theorem layout_chars_quote_free {cs : List Char}
    (h : ∀ c ∈ cs, isDigitCh c = true ∨ c = '-' ∨ c = ' ' ∨ c = ':') :
    ∀ c ∈ cs, c ≠ '"' ∧ c ≠ '\\' := by
  intro c hc
  rcases h c hc with h1 | h1 | h1 | h1
  · constructor
    · intro he; subst he; exact absurd h1 (by decide)
    · intro he; subst he; exact absurd h1 (by decide)
  all_goals subst h1; exact ⟨by decide, by decide⟩

theorem layout_str_ne_empty_null {cs : List Char} {c : Char} {rest : List Char}
    (hcs : cs = c :: rest)
    (h : ∀ x ∈ cs, isDigitCh x = true ∨ x = '-' ∨ x = ' ' ∨ x = ':') :
    String.mk cs ≠ "" ∧ String.mk cs ≠ "null" := by
  subst hcs
  have hcm := h c (List.mem_cons_self c rest)
  constructor
  · have he : ("" : String) = String.mk [] := rfl
    rw [he]
    exact mk_ne_mk (by simp)
  · have he : ("null" : String) = String.mk ['n', 'u', 'l', 'l'] := rfl
    rw [he]
    apply mk_ne_mk
    intro hx
    injection hx with h1 _
    subst h1
    rcases hcm with h1 | h1 | h1 | h1 <;> exact absurd h1 (by decide)

theorem formatDateTimeCh_ne_nil (t : GoTime) : formatDateTimeCh t ≠ [] := by
  simp only [formatDateTimeCh, pad4L, pad2L]
  simp

theorem formatDateCh_ne_nil (t : GoTime) : formatDateCh t ≠ [] := by
  simp only [formatDateCh, pad4L, pad2L]
  simp

theorem C2_time_leg (st : ZTime) (t : GoTime) (hv : validDateTime t) (hn : t.nsec = 0) :
    ZTime.decodeJSONBytes st (encStr (NewTime t).MarshalJSON) = (NewTime t, none) := by
  have hchars := formatDateTimeCh_chars t
  have henc : encStr (NewTime t).MarshalJSON
      = String.mk ('"' :: (formatDateTimeCh t ++ ['"'])) := rfl
  rw [henc]
  simp only [ZTime.decodeJSONBytes, tokenize_quoted (layout_chars_quote_free hchars),
    ZTime.UnmarshalJSON]
  obtain ⟨c, rest, hcs⟩ := list_ex_cons (formatDateTimeCh_ne_nil t)
  obtain ⟨hne0, hnn⟩ := layout_str_ne_empty_null hcs hchars
  rw [ZTime.UnmarshalText, if_neg (by simp [hne0, hnn]),
    show (String.mk (formatDateTimeCh t)).data = formatDateTimeCh t from rfl,
    parseDateTimeCh_format t hv,
    show ({ t with nsec := 0 } : GoTime) = t by rw [← hn]]
  rfl

theorem C2_date_leg (st : ZDate) (t : GoTime) (hv : validDateTime t) (hh : t.hour = 0)
    (hmi : t.minute = 0) (hs : t.second = 0) (hn : t.nsec = 0) :
    ZDate.decodeJSONBytes st (encStr (ZDate.MarshalJSON ⟨t, true⟩)) = (⟨t, true⟩, none) := by
  have hchars := formatDateCh_chars t
  have henc : encStr (ZDate.MarshalJSON ⟨t, true⟩)
      = String.mk ('"' :: (formatDateCh t ++ ['"'])) := rfl
  rw [henc]
  simp only [ZDate.decodeJSONBytes, tokenize_quoted (layout_chars_quote_free hchars),
    ZDate.UnmarshalJSON]
  obtain ⟨c, rest, hcs⟩ := list_ex_cons (formatDateCh_ne_nil t)
  obtain ⟨hne0, hnn⟩ := layout_str_ne_empty_null hcs hchars
  rw [ZDate.UnmarshalText, if_neg (by simp [hne0, hnn]),
    show (String.mk (formatDateCh t) ++ " 00:00:00").data
        = formatDateCh t ++ ' ' :: '0' :: '0' :: ':' :: '0' :: '0' :: ':' :: '0' :: ['0']
      from rfl,
    parseDateTimeCh_formatDate t hv,
    show ({ t with hour := 0, minute := 0, second := 0, nsec := 0 } : GoTime) = t by
      obtain ⟨y, mo, d, hr, mi, s2, ns⟩ := t
      simp_all]

/-- C2 counterexample: for the time value 2024-03-05 13:00:00.5 (500000000
nanoseconds), decodeJSON of encodeJSON of construct(v) yields the time with
the fractional second dropped, which differs from construct(v). -/
theorem C2_counterexample :
    ZTime.decodeJSONBytes ⟨zeroGoTime, false⟩
        (encStr (NewTime ⟨2024, 3, 5, 13, 0, 0, 500000000⟩).MarshalJSON)
      = (⟨⟨2024, 3, 5, 13, 0, 0, 0⟩, true⟩, none) ∧
    ((⟨⟨2024, 3, 5, 13, 0, 0, 0⟩, true⟩ : ZTime)
      ≠ NewTime ⟨2024, 3, 5, 13, 0, 0, 500000000⟩) := by
  exact ⟨by decide, by decide⟩

/-- C2 amended: decodeJSON after encodeJSON reproduces construct(v) for
OptionalInt (int64 range), OptionalFloat (finite decimal-rational values —
every finite IEEE double; Inf/NaN fail to encode as the claim already
excepts), OptionalBool, OptionalText (values fixed by the trimming
normalization, escape-free), and for OptionalDateTime/OptionalDate only on
values the fixed layouts can represent: whole-second timestamps (and
midnight dates) — sub-second precision is dropped by the layout, so the
claim's "every time value" fails. -/
theorem C2_json_roundtrip :
    (∀ (st : ZInt) (n : Int), -(2 ^ 63) ≤ n → n ≤ 2 ^ 63 - 1 →
      ZInt.decodeJSONBytes st (encStr (NewInt n).MarshalJSON) = (NewInt n, none)) ∧
    (∀ (st : ZFloat) (q : ℚ), (decExpOf q.den).isSome = true →
      ZFloat.decodeJSONBytes st (encStr (NewFloat (.finite q)).MarshalJSON)
        = (NewFloat (.finite q), none)) ∧
    (∀ (st : ZBool) (b : Bool),
      ZBool.decodeJSONBytes st (encStr (NewBool b).MarshalJSON) = (NewBool b, none)) ∧
    (∀ (st : ZString) (v : String), v ≠ "" → TrimFormatStr v = v → jsonSafe v = true →
      ZString.decodeJSONBytes st (encStr (NewString v).MarshalJSON) = (NewString v, none)) ∧
    (∀ st : ZString,
      ZString.decodeJSONBytes st (encStr (NewString "").MarshalJSON)
        = (NewString "", none)) ∧
    (∀ (st : ZTime) (t : GoTime), validDateTime t → t.nsec = 0 →
      ZTime.decodeJSONBytes st (encStr (NewTime t).MarshalJSON) = (NewTime t, none)) ∧
    (∀ (st : ZDate) (t : GoTime), validDateTime t → t.hour = 0 → t.minute = 0 →
      t.second = 0 → t.nsec = 0 →
      ZDate.decodeJSONBytes st (encStr (ZDate.MarshalJSON ⟨t, true⟩)) = (⟨t, true⟩, none)) :=
  ⟨C2_int_leg, C2_float_leg, C2_bool_leg, C2_string_leg, C2_string_empty_leg, C2_time_leg,
    C2_date_leg⟩

/-- C2 witness: each leg with hypotheses instantiated at a concrete value. -/
theorem C2_json_roundtrip_witness :
    ZInt.decodeJSONBytes ⟨0, false⟩ (encStr (NewInt (-37)).MarshalJSON)
      = (NewInt (-37), none) ∧
    ZFloat.decodeJSONBytes ⟨.finite 0, false⟩ (encStr (NewFloat (.finite 3)).MarshalJSON)
      = (NewFloat (.finite 3), none) ∧
    ZString.decodeJSONBytes ⟨⟨false, ""⟩⟩ (encStr (NewString "hello").MarshalJSON)
      = (NewString "hello", none) ∧
    ZTime.decodeJSONBytes ⟨zeroGoTime, false⟩
        (encStr (NewTime ⟨2024, 3, 5, 13, 0, 0, 0⟩).MarshalJSON)
      = (NewTime ⟨2024, 3, 5, 13, 0, 0, 0⟩, none) ∧
    ZDate.decodeJSONBytes ⟨zeroGoTime, false⟩
        (encStr (ZDate.MarshalJSON ⟨⟨2024, 3, 5, 0, 0, 0, 0⟩, true⟩))
      = (⟨⟨2024, 3, 5, 0, 0, 0, 0⟩, true⟩, none) :=
  ⟨C2_json_roundtrip.1 ⟨0, false⟩ (-37) (by norm_num) (by norm_num),
    C2_json_roundtrip.2.1 ⟨.finite 0, false⟩ 3 (by decide),
    C2_json_roundtrip.2.2.2.1 ⟨⟨false, ""⟩⟩ "hello" (by decide) (by decide) (by decide),
    C2_json_roundtrip.2.2.2.2.2.1 ⟨zeroGoTime, false⟩ ⟨2024, 3, 5, 13, 0, 0, 0⟩
      (by decide) rfl,
    C2_json_roundtrip.2.2.2.2.2.2 ⟨zeroGoTime, false⟩ ⟨2024, 3, 5, 0, 0, 0, 0⟩
      (by decide) rfl rfl rfl rfl⟩
